import Mathlib

/-!
Shallow embedding of the ShellCoachingAI real-time coaching core
(`src/coach.py`, `src/zones.py`, `src/track_map.py`, `src/config.py`)
over exact rational arithmetic.

Modelling conventions:
* Python floats are idealised as rationals; float literals denote the
  decimal rational they are written as.
* A JSON scalar is `JVal`: a number, a string (carrying the result that
  Python `float()` would produce on it: `none` when `float()` raises),
  or `null`.  `float(None)` raises `TypeError`, `float` of a
  non-numeric string raises `ValueError`.
* `np.cos` / `np.deg2rad` are transcendental; they are abstracted as an
  uninterpreted `GeoModel` (a rational scale factor for `deg2rad` and an
  uninterpreted function for `cos`).  No claim depends on their values.
* `time.time()` calls inside one `ingest` call are modelled as a single
  wall-clock parameter `now`.
* The mutable `Coach` object is `CoachState`; `ingest` is a function
  from state and message to a Python outcome (normal return or raised
  exception) and the state after the call.
-/

namespace ShellCoach

/-- A JSON scalar value as `Coach.ingest` sees it after `json.loads`.
A string carries the rational that Python `float()` yields on it, or
`none` when `float()` would raise `ValueError` (non-numeric string). -/
inductive JVal where
  | num (q : ℚ)
  | str (s : String) (parsed : Option ℚ)
  | null
deriving DecidableEq

/-- Python exception kinds raised by `float()` coercion. -/
inductive PyErr where
  | valueError
  | typeError
deriving DecidableEq

/-- Python truthiness of a JSON scalar (`0`, `""` and `null` are falsy). -/
def pyTruthy : JVal → Bool
  | .num q => decide (q ≠ 0)
  | .str s _ => decide (s ≠ "")
  | .null => false

/-- Python `float(v)` on a JSON scalar: numbers coerce, strings parse or
raise `ValueError`, `None` raises `TypeError`. -/
def pyFloat : JVal → Except PyErr ℚ
  | .num q => .ok q
  | .str _ (some q) => .ok q
  | .str _ none => .error .valueError
  | .null => .error .typeError

/-- One telemetry message: the dict keys `Coach.ingest` reads
(`coach.py` lines 42-48).  `none` means the key is absent. -/
structure Msg where
  timestamp : Option JVal := none
  ts : Option JVal := none
  latitude : Option JVal := none
  longitude : Option JVal := none
  speed : Option JVal := none
  power : Option JVal := none
  current : Option JVal := none
  voltage : Option JVal := none
deriving DecidableEq

/-- `msg.get(k, None)` gives Python `None` both when the key is absent
and when its JSON value is `null`; collapse the two. -/
def fieldOrNone : Option JVal → Option JVal
  | some .null => none
  | x => x

/-- The `msg.get("ts", time.time())` part of `coach.py` line 42: the
`ts` value is used as-is when the key is present (no truthiness check),
else the wall clock. -/
def tsFallback (msg : Msg) (now : ℚ) : Except PyErr ℚ :=
  match msg.ts with
  | some w => pyFloat w
  | none => .ok now

/-- `coach.py` line 42:
`ts = float(msg.get("timestamp") or msg.get("ts", time.time()))`.
A falsy `timestamp` (absent, `null`, `0`, `""`) falls through to the
`ts` fallback. -/
def resolveTs (msg : Msg) (now : ℚ) : Except PyErr ℚ :=
  match msg.timestamp with
  | some v => if pyTruthy v then pyFloat v else tsFallback msg now
  | none => tsFallback msg now

/-- The configuration values `Coach.ingest` reads (`src/config.py`).
Window sizes pass through `int()`, everything else through `float()`. -/
structure Config where
  BUFFER_SECONDS : ℚ
  SMOOTH_WIN : ℕ
  MIN_SAMPLES_FOR_CUE : ℕ
  STOP_APPROACH_M : ℚ
  ZONE_HYSTERESIS_M : ℚ
  CONFIDENCE_MIN : ℚ
  SPEED_MARGIN_PCT : ℚ
  POWER_MARGIN_W : ℚ
  MIN_SECONDS_BETWEEN_SAME_CUE : ℚ
  CUE_COOLDOWN_BY_ZONE : ℚ
  CUE_COOLDOWN_BY_TYPE : ℚ
  SPEED_MIN_KMH : ℚ
  SPEED_MAX_KMH : ℚ
  POWER_MIN_W : ℚ
  POWER_MAX_W : ℚ
  CURRENT_MIN_A : ℚ
  CURRENT_MAX_A : ℚ
  VOLTAGE_MIN_V : ℚ
  VOLTAGE_MAX_V : ℚ
deriving DecidableEq

/-- The numeric defaults of `src/config.py` (`CONFIG` dictionary). -/
def defaultConfig : Config where
  BUFFER_SECONDS := 20
  SMOOTH_WIN := 7
  MIN_SAMPLES_FOR_CUE := 10
  STOP_APPROACH_M := 80
  ZONE_HYSTERESIS_M := 5
  CONFIDENCE_MIN := 2/5
  SPEED_MARGIN_PCT := 1/20
  POWER_MARGIN_W := 30
  MIN_SECONDS_BETWEEN_SAME_CUE := 2
  CUE_COOLDOWN_BY_ZONE := 3
  CUE_COOLDOWN_BY_TYPE := 2
  SPEED_MIN_KMH := 0
  SPEED_MAX_KMH := 200
  POWER_MIN_W := -1000
  POWER_MAX_W := 5000
  CURRENT_MIN_A := -100
  CURRENT_MAX_A := 200
  VOLTAGE_MIN_V := 0
  VOLTAGE_MAX_V := 500

/-! ### `src/zones.py` -/

/-- One row of the `turn_segs` table (`turn_zones.json`, default
positional index). -/
structure TurnSeg where
  s_start : ℚ
  s_end : ℚ
deriving DecidableEq

/-- One row of the `stop_lines_s` table. -/
structure StopLine where
  s_stop_m : ℚ
  stop_line : ℤ
deriving DecidableEq

/-- Wrap-aware turn membership (`zones.py` lines 20-24). -/
def inTurnB (s : ℚ) (z : TurnSeg) : Bool :=
  if z.s_start ≤ z.s_end then decide (z.s_start ≤ s ∧ s ≤ z.s_end)
  else decide (s ≥ z.s_start ∨ s ≤ z.s_end)

/-- The turn loop of `zones.py` lines 19-27: first matching row (by
index `i`) yields id `TURN_{i+1}`. -/
def scanTurns (s : ℚ) : List TurnSeg → ℕ → Option String
  | [], _ => none
  | z :: rest, i =>
    if inTurnB s z then some ("TURN_" ++ toString (i + 1)) else scanTurns s rest (i + 1)

/-- The stop-line loop of `zones.py` lines 31-39: forward distance on
the loop, candidate iff `0 < d ≤ stop_approach_m`, strictly smaller `d`
wins, earlier row wins ties. -/
def bestStop (s_now L stop_approach_m : ℚ) : List StopLine → Option (ℚ × ℤ) → Option (ℚ × ℤ)
  | [], best => best
  | r :: rest, best =>
    let d0 := r.s_stop_m - s_now
    let d := if d0 < 0 then d0 + L else d0
    let best' :=
      if 0 < d ∧ d ≤ stop_approach_m then
        match best with
        | none => some (d, r.stop_line)
        | some b => if d < b.1 then some (d, r.stop_line) else some b
      else best
    bestStop s_now L stop_approach_m rest best'

/-- `zones.py` `assign_zone_id`: priority TURN > STOP_APPROACH >
STRAIGHT. -/
def assign_zone_id (s_now : ℚ) (stop_lines_s : List StopLine) (turn_segs : List TurnSeg)
    (L : ℚ) (stop_approach_m : ℚ) : String × String :=
  match scanTurns s_now turn_segs 0 with
  | some zid => ("TURN", zid)
  | none =>
    match bestStop s_now L stop_approach_m stop_lines_s none with
    | some b => ("STOP_APPROACH", "STOP_" ++ toString b.2 ++ "_APPROACH")
    | none => ("STRAIGHT", "STRAIGHT")

/-! ### `src/track_map.py` -/

/-- Abstraction of the transcendental parts of `gps_to_local_xy`:
`d2r` models the `np.deg2rad` scale factor (π/180 in floats) and `cosr`
models `np.cos` on radians.  Both are uninterpreted; no claim depends
on their values. -/
structure GeoModel where
  d2r : ℚ
  cosr : ℚ → ℚ

/-- `track_map.py` `gps_to_local_xy`: equirectangular projection with
`R_EARTH = 6371000`. -/
def gps_to_local_xy (g : GeoModel) (lat lon lat0 lon0 : ℚ) : ℚ × ℚ :=
  let lat_rad := lat * g.d2r
  let lon_rad := lon * g.d2r
  let lat0_rad := lat0 * g.d2r
  let lon0_rad := lon0 * g.d2r
  ((lon_rad - lon0_rad) * g.cosr lat0_rad * 6371000, (lat_rad - lat0_rad) * 6371000)

/-- The track descriptor (`track.json`): polyline vertex arrays and the
total length `length_m`. -/
structure Track where
  x : List ℚ
  y : List ℚ
  s : List ℚ
  length_m : ℚ
deriving DecidableEq

/-- Accumulator of the projection loop in `project_to_polyline`:
`dist2 = none` models the initial `float("inf")`; the signed lateral
offset of the source, `best_sign * sqrt(best_dist2)`, is irrational, so
the pair `(sign, dist2)` is kept instead (`d_m` is never read by the
core after being stored). -/
structure PBest where
  dist2 : Option ℚ
  s : ℚ
  sign : ℚ
deriving DecidableEq

/-- `dist2 < best_dist2` where `best_dist2` may still be infinity. -/
def ltInf (d : ℚ) : Option ℚ → Bool
  | none => true
  | some b => decide (d < b)

/-- Vertex coordinate access, `px[i]` (tracks store equal-length
arrays; out-of-range defaults never fire under the well-formedness
hypotheses used in the theorems). -/
def vtxX (t : Track) (i : ℕ) : ℚ := t.x.getD i 0

/-- Vertex coordinate access, `py[i]`. -/
def vtxY (t : Track) (i : ℕ) : ℚ := t.y.getD i 0

/-- Arc-length array access, `ps[i]`. -/
def sAt (t : Track) (i : ℕ) : ℚ := t.s.getD i 0

/-- `vv = vx*vx + vy*vy` of segment `i` (`track_map.py` line 31). -/
def segVV (t : Track) (i : ℕ) : ℚ :=
  (vtxX t (i + 1) - vtxX t i) * (vtxX t (i + 1) - vtxX t i)
    + (vtxY t (i + 1) - vtxY t i) * (vtxY t (i + 1) - vtxY t i)

/-- The clamped parametric position `t = max(0, min(1, w·v/vv))` of the
query on segment `i` (`track_map.py` lines 36-37). -/
def segCandT (qx qy : ℚ) (t : Track) (i : ℕ) : ℚ :=
  max 0 (min 1 (((qx - vtxX t i) * (vtxX t (i + 1) - vtxX t i)
    + (qy - vtxY t i) * (vtxY t (i + 1) - vtxY t i)) / segVV t i))

/-- Squared distance from the query to its clamped projection on
segment `i` (`track_map.py` lines 39-41). -/
def candDist2 (qx qy : ℚ) (t : Track) (i : ℕ) : ℚ :=
  let tt := segCandT qx qy t i
  let cx := vtxX t i + tt * (vtxX t (i + 1) - vtxX t i)
  let cy := vtxY t i + tt * (vtxY t (i + 1) - vtxY t i)
  (qx - cx) * (qx - cx) + (qy - cy) * (qy - cy)

/-- The candidate arc-length of segment `i`:
`ps[i] + t * (ps[i+1] - ps[i])` (`track_map.py` line 45). -/
def candS (qx qy : ℚ) (t : Track) (i : ℕ) : ℚ :=
  sAt t i + segCandT qx qy t i * (sAt t (i + 1) - sAt t i)

/-- One iteration of the loop in `track_map.py` lines 26-49: skip
segments with `vv < 1e-9`, clamp the parametric projection to `[0,1]`,
and replace the best candidate on strictly smaller squared distance. -/
def projStep (qx qy : ℚ) (t : Track) (i : ℕ) (acc : PBest) : PBest :=
  if segVV t i < 1 / 1000000000 then acc
  else
    let dist2 := candDist2 qx qy t i
    if ltInf dist2 acc.dist2 then
      { dist2 := some dist2
        s := candS qx qy t i
        sign :=
          if 0 ≤ (vtxX t (i + 1) - vtxX t i) * (qy - vtxY t i)
              - (vtxY t (i + 1) - vtxY t i) * (qx - vtxX t i) then 1 else -1 }
    else acc

/-- The projection loop, iterated over an explicit index list. -/
def projFold (qx qy : ℚ) (t : Track) : List ℕ → PBest → PBest
  | [], acc => acc
  | i :: rest, acc => projFold qx qy t rest (projStep qx qy t i acc)

/-- `track_map.py` `project_to_polyline` (`for i in range(len(px)-1)`),
starting from `best_dist2 = inf`, `best_s = 0.0`, `best_sign = 1.0`. -/
def project_to_polyline (qx qy : ℚ) (t : Track) : PBest :=
  projFold qx qy t (List.range (t.x.length - 1)) { dist2 := none, s := 0, sign := 1 }

/-! ### Buffer and smoothing (`coach.py` lines 111-136) -/

/-- One entry of `self.buf` (`coach.py` lines 112-120).  `d_m` of the
source equals `dSign * sqrt dDist2`; the pair is stored since the exact
square root is irrational (the field is never read back). -/
structure Sample where
  ts : ℚ
  lat : ℚ
  lon : ℚ
  x_m : ℚ
  y_m : ℚ
  s_m : ℚ
  dSign : ℚ
  dDist2 : Option ℚ
  speed_mps : ℚ
  power_w : ℚ
  current_a : Option ℚ
deriving DecidableEq

/-- The pruning loop of `coach.py` lines 125-126:
`while buf and (ts - buf[0].ts) > horizon: popleft()`. -/
def pruneBuf (ts horizon : ℚ) : List Sample → List Sample
  | [] => []
  | x :: rest => if ts - x.ts > horizon then pruneBuf ts horizon rest else x :: rest

/-- Python `lst[-win:]` for a nonnegative `win` (note `lst[-0:]` is the
whole list). -/
def lastSlice {α : Type} (win : ℕ) (l : List α) : List α :=
  if win = 0 then l else l.drop (l.length - win)

/-- `np.median`: sort ascending; middle element for odd length, mean of
the two middles for even length (the empty case is unreachable in the
core: the freshly appended sample survives pruning). -/
def npMedian (l : List ℚ) : ℚ :=
  let srt := l.insertionSort (· ≤ ·)
  let n := l.length
  if n = 0 then 0
  else if n % 2 = 1 then srt.getD (n / 2) 0
  else (srt.getD (n / 2 - 1) 0 + srt.getD (n / 2) 0) / 2

/-! ### Field extraction and power resolution (`coach.py` lines 40-102) -/

/-- The validated fields a sample contributes after `coach.py`
lines 40-102 succeed. -/
structure Parsed where
  ts : ℚ
  lat : ℚ
  lon : ℚ
  speed_mps : ℚ
  power_w : ℚ
  current_a : Option ℚ
deriving DecidableEq

/-- `float(v) if v is not None else None` — coercion of an optional
field (`coach.py` lines 66-67 and 83-84). -/
def floatOpt : Option JVal → Except PyErr (Option ℚ)
  | none => .ok none
  | some v =>
    match pyFloat v with
    | .error e => .error e
    | .ok q => .ok (some q)

/-- Sanity-bound filtering: a value outside `[lo, hi]` becomes `None`
(`coach.py` lines 70-80 and 85-89). -/
def sanitizeRange (v : Option ℚ) (lo hi : ℚ) : Option ℚ :=
  match v with
  | none => none
  | some x => if x < lo ∨ x > hi then none else some x

/-- `coach.py` lines 92-93: when power is unusable, fall back to
`voltage_v * abs(current_a)` (the voltage value is used as-is; there is
no division by 1000 in `Coach.ingest`). -/
def resolvePowerFallback (p v i : Option ℚ) : Option ℚ :=
  match p with
  | some pw => some pw
  | none =>
    match v, i with
    | some vv, some ii => some (vv * |ii|)
    | _, _ => none

/-- `coach.py` lines 40-102: extract and validate the sample fields.
`.ok none` is a dropped sample, `.error` a raised exception. -/
def parseSample (cfg : Config) (msg : Msg) (now : ℚ) : Except PyErr (Option Parsed) :=
  match resolveTs msg now with
  | .error e => .error e
  | .ok ts =>
    match fieldOrNone msg.latitude, fieldOrNone msg.longitude, fieldOrNone msg.speed with
    | some latv, some lonv, some speedv =>
      (match pyFloat latv with
       | .error e => .error e
       | .ok lat =>
         match pyFloat lonv with
         | .error e => .error e
         | .ok lon =>
           match pyFloat speedv with
           | .error e => .error e
           | .ok speed_kmh =>
             if speed_kmh < cfg.SPEED_MIN_KMH ∨ speed_kmh > cfg.SPEED_MAX_KMH then .ok none
             else
               match floatOpt (fieldOrNone msg.voltage) with
               | .error e => .error e
               | .ok voltage0 =>
                 match floatOpt (fieldOrNone msg.current) with
                 | .error e => .error e
                 | .ok current0 =>
                   let voltage_v := sanitizeRange voltage0 cfg.VOLTAGE_MIN_V cfg.VOLTAGE_MAX_V
                   let current_a := sanitizeRange current0 cfg.CURRENT_MIN_A cfg.CURRENT_MAX_A
                   match floatOpt (fieldOrNone msg.power) with
                   | .error e => .error e
                   | .ok power0 =>
                     let power1 := sanitizeRange power0 cfg.POWER_MIN_W cfg.POWER_MAX_W
                     match resolvePowerFallback power1 voltage_v current_a with
                     | none => .ok none
                     | some p =>
                       if p < cfg.POWER_MIN_W ∨ p > cfg.POWER_MAX_W then .ok none
                       else
                         .ok (some { ts := ts, lat := lat, lon := lon
                                     speed_mps := speed_kmh / (18/5)
                                     power_w := p, current_a := current_a }))
    | _, _, _ => .ok none

/-! ### Session data and Coach state (`coach.py` lines 12-32) -/

/-- One row of the zone-memory table, keyed by `zone_id`.
`confidence` and `opt_state` model `ref.get(...)` with their defaults
applied on read. -/
structure ZoneRef where
  opt_speed_mps : ℚ
  opt_power_w : ℚ
  opt_state : Option String := none
  confidence : Option ℚ := none
deriving DecidableEq

/-- The immutable per-session data handed to `Coach.__init__`. -/
structure Session where
  cfg : Config
  track : Track
  stop_lines_s : List StopLine
  turn_segs : List TurnSeg
  zone_memory : List (String × ZoneRef)
  g : GeoModel

/-- The mutable fields of a `Coach` instance (`coach.py` lines 21-32). -/
structure CoachState where
  lat0 : Option ℚ := none
  lon0 : Option ℚ := none
  buf : List Sample := []
  last_cue_time : List (String × ℚ) := []
  last_cue_by_zone : List (String × ℚ) := []
  last_cue_by_type : List (String × ℚ) := []
  last_zone_id : Option String := none
  last_zone_type : Option String := none
  last_zone_s : Option ℚ := none
  last_cue_state : List (String × String) := []
  last_cue_values : List (String × (ℚ × ℚ)) := []
deriving DecidableEq

/-- The state `Coach.__init__` leaves behind. -/
def initState : CoachState := {}

/-- Python `d.get(k, default)` on an association-list dict. -/
def mapGet {α : Type} (m : List (String × α)) (k : String) (d : α) : α :=
  match m.lookup k with
  | some v => v
  | none => d

/-- Python `d[k] = v` on an association-list dict. -/
def mapSet {α : Type} (m : List (String × α)) (k : String) (v : α) : List (String × α) :=
  match m with
  | [] => [(k, v)]
  | (k', v') :: rest => if k' = k then (k, v) :: rest else (k', v') :: mapSet rest k v

/-! ### Cue engine (`coach.py` lines 178-262) -/

/-- The emitted cue payload (`coach.py` lines 279-304).  The
human-readable `reason` string (lines 265-277), which renders numbers
with float formatting, is the one field not modelled; no claim refers
to it. -/
structure Cue where
  ts : ℚ
  zone_id : String
  zone_type : Option String
  confidence : ℚ
  opt_state : String
  state : String
  is_responding : Bool
  current_speed_kmh : ℚ
  optimal_speed_kmh : ℚ
  speed_diff_pct : ℚ
  current_power_w : ℚ
  optimal_power_w : ℚ
  power_diff_w : ℚ
  cue_key : String
  cue_text : String
  opt_speed_kmh : ℚ
  opt_power_w : ℚ
  speed_kmh : ℚ
  power_w : ℚ
deriving DecidableEq

/-- The power-breach cue selected by zone type (`coach.py`
lines 193-198). -/
def powerCue (zone_id : String) (zone_type : Option String) : String × String :=
  if zone_type = some "TURN" then
    ("TURN_POWER_SPIKE", zone_id ++ ": Power spike in turn → Smooth throttle")
  else if zone_type = some "STOP_APPROACH" then
    ("STOP_APPROACH_POWER", zone_id ++ ": Stop ahead → Coast earlier, keep power low")
  else
    ("POWER_HIGH", zone_id ++ ": Power too high → Reduce throttle")

/-- The candidate list built by `coach.py` lines 183-198: a speed cue
appended first when `not speed_ok`, then a zone-typed power cue when
`not power_ok`; line 237 emits `cues[0]`. -/
def cueCandidates (zone_id : String) (zone_type : Option String)
    (speed_ok power_ok : Bool) : List (String × String) :=
  (if !speed_ok then [("SPEED_HIGH", zone_id ++ ": Too fast → Coast / reduce throttle")] else [])
    ++ (if !power_ok then [powerCue zone_id zone_type] else [])

/-- "Moved strictly toward the optimum": the pattern used for both the
speed and the power check on `coach.py` lines 216-218. -/
def improvedTowardOpt (sm last opt : ℚ) : Bool :=
  decide ((sm < last ∧ sm > opt) ∨ (sm ≤ opt ∧ last > opt))

/-- The responding check of `coach.py` lines 210-219, given the zone's
previously recorded state and values. -/
def respondingCheck (last_state : String) (last_speed last_power : ℚ)
    (base_state : String) (sm_speed sm_power opt_speed opt_power : ℚ) : Bool :=
  if last_state = "red" ∧ base_state = "green" then true
  else if last_state = "red" ∧ base_state = "red" then
    improvedTowardOpt sm_speed last_speed opt_speed
      || improvedTowardOpt sm_power last_power opt_power
  else false

/-- `cue_key.split("_")[0] if "_" in cue_key else cue_key`
(`coach.py` line 253). -/
def cueTypeOf (k : String) : String := k.takeWhile (fun c => c ≠ '_')

/-- `coach.py` line 222: final state is green iff the base state is
green or the driver is responding. -/
def drivingStateOf (base_state : String) (is_responding : Bool) : String :=
  if base_state = "green" ∨ is_responding = true then "green" else "red"

/-- `coach.py` lines 225-226: record this zone's driving state and
smoothed values, unconditionally on every evaluation. -/
def cueStateUpdate (σ : CoachState) (zid : String) (driving_state : String)
    (sm : ℚ × ℚ) : CoachState :=
  { σ with
    last_cue_state := mapSet σ.last_cue_state zid driving_state
    last_cue_values := mapSet σ.last_cue_values zid sm }

/-- The three rate-limit gates of `coach.py` lines 237-262: `none`
means the candidate was dropped (no clock advanced); `some` returns the
state with all three clocks stamped to `now`. -/
def rateStage (cfg : Config) (σ : CoachState) (zone_id cue_key : String) (now : ℚ) :
    Option CoachState :=
  if now - mapGet σ.last_cue_time cue_key 0 < cfg.MIN_SECONDS_BETWEEN_SAME_CUE then none
  else if now - mapGet σ.last_cue_by_zone zone_id 0 < cfg.CUE_COOLDOWN_BY_ZONE then none
  else
    let cue_type := cueTypeOf cue_key
    if now - mapGet σ.last_cue_by_type cue_type 0 < cfg.CUE_COOLDOWN_BY_TYPE then none
    else
      some { σ with
        last_cue_time := mapSet σ.last_cue_time cue_key now
        last_cue_by_zone := mapSet σ.last_cue_by_zone zone_id now
        last_cue_by_type := mapSet σ.last_cue_by_type cue_type now }

/-! ### Zone hysteresis (`coach.py` lines 147-161) -/

/-- `coach.py` lines 148-155: when the raw classification differs from
the previously confirmed zone and the position is still within the
hysteresis distance of the last confirmed change, keep the previous
zone. -/
def applyZoneHysteresis (cfg : Config) (σ : CoachState) (raw_type raw_id : String)
    (s_m : ℚ) : Option String × String :=
  match σ.last_zone_id, σ.last_zone_s with
  | some lzid, some lzs =>
    if lzid ≠ raw_id ∧ |s_m - lzs| < cfg.ZONE_HYSTERESIS_M then (σ.last_zone_type, lzid)
    else (some raw_type, raw_id)
  | _, _ => (some raw_type, raw_id)

/-- `coach.py` lines 158-161: record a confirmed zone change. -/
def zoneTrackUpdate (σ : CoachState) (zty : Option String) (zid : String) (s_m : ℚ) :
    CoachState :=
  if σ.last_zone_id ≠ some zid then
    { σ with last_zone_id := some zid, last_zone_type := zty, last_zone_s := some s_m }
  else σ

/-- Stage 5 of `ingest`: hysteresis plus tracking update; returns the
new state and the confirmed `(zone_type, zone_id)`. -/
def zoneStage (cfg : Config) (σ : CoachState) (raw_type raw_id : String) (s_m : ℚ) :
    CoachState × Option String × String :=
  let z := applyZoneHysteresis cfg σ raw_type raw_id s_m
  (zoneTrackUpdate σ z.1 z.2 s_m, z.1, z.2)

/-! ### `Coach.ingest` -/

/-- Stage 2 of `ingest` (`coach.py` lines 104-120): fix the GPS origin
on the first valid sample, project, and build the buffered sample. -/
def geoStage (S : Session) (σ : CoachState) (p : Parsed) : CoachState × Sample :=
  let σ1 := if σ.lat0 = none then { σ with lat0 := some p.lat, lon0 := some p.lon } else σ
  let xy := gps_to_local_xy S.g p.lat p.lon (σ1.lat0.getD 0) (σ1.lon0.getD 0)
  let pb := project_to_polyline xy.1 xy.2 S.track
  (σ1, { ts := p.ts, lat := p.lat, lon := p.lon, x_m := xy.1, y_m := xy.2, s_m := pb.s
         dSign := pb.sign, dDist2 := pb.dist2
         speed_mps := p.speed_mps, power_w := p.power_w, current_a := p.current_a })

/-- Stage 3 of `ingest` (`coach.py` lines 121-126): append then prune
by the time horizon. -/
def bufferStage (cfg : Config) (σ : CoachState) (smp : Sample) : CoachState :=
  { σ with buf := pruneBuf smp.ts cfg.BUFFER_SECONDS (σ.buf ++ [smp]) }

/-- Stage 4 of `ingest` (`coach.py` lines 132-136): rolling medians of
the last `SMOOTH_WIN` samples. -/
def smoothedVals (cfg : Config) (buf : List Sample) : ℚ × ℚ :=
  let recent := lastSlice cfg.SMOOTH_WIN buf
  (npMedian (recent.map (·.speed_mps)), npMedian (recent.map (·.power_w)))

/-- `Coach.ingest`: one telemetry message in, a cue or nothing (or a
raised exception) out, together with the state of the `Coach` object
after the call. -/
def ingest (S : Session) (σ : CoachState) (msg : Msg) (now : ℚ) :
    Except PyErr (Option Cue) × CoachState :=
  match parseSample S.cfg msg now with
  | .error e => (.error e, σ)
  | .ok none => (.ok none, σ)
  | .ok (some p) =>
    let gs := geoStage S σ p
    let σ2 := bufferStage S.cfg gs.1 gs.2
    if σ2.buf.length < S.cfg.MIN_SAMPLES_FOR_CUE then (.ok none, σ2)
    else
      let sm := smoothedVals S.cfg σ2.buf
      let raw := assign_zone_id gs.2.s_m S.stop_lines_s S.turn_segs S.track.length_m
        S.cfg.STOP_APPROACH_M
      let zs := zoneStage S.cfg σ2 raw.1 raw.2 gs.2.s_m
      let σ3 := zs.1
      match S.zone_memory.lookup zs.2.2 with
      | none => (.ok none, σ3)
      | some ref =>
        let conf := ref.confidence.getD 1
        if conf < S.cfg.CONFIDENCE_MIN then (.ok none, σ3)
        else
          let zid := zs.2.2
          let opt_speed := ref.opt_speed_mps
          let opt_power := ref.opt_power_w / 1000000
          let speed_ok := decide (sm.1 ≤ opt_speed * (1 + S.cfg.SPEED_MARGIN_PCT))
          let power_ok := decide (sm.2 ≤ opt_power + S.cfg.POWER_MARGIN_W)
          let cues := cueCandidates zid zs.2.1 speed_ok power_ok
          let base_state := if speed_ok && power_ok then "green" else "red"
          let is_responding : Bool :=
            match σ3.last_cue_values.lookup zid, σ3.last_cue_state.lookup zid with
            | some lastVals, some last_state =>
              respondingCheck last_state lastVals.1 lastVals.2 base_state sm.1 sm.2
                opt_speed opt_power
            | _, _ => false
          let driving_state := drivingStateOf base_state is_responding
          let σ4 := cueStateUpdate σ3 zid driving_state (sm.1, sm.2)
          if cues = [] ∧ driving_state = "green" ∧ base_state = "green"
              ∧ is_responding = false then (.ok none, σ4)
          else
            match cues.head? with
            | none => (.ok none, σ4)
            | some ck =>
              match rateStage S.cfg σ4 zid ck.1 now with
              | none => (.ok none, σ4)
              | some σ5 =>
                (.ok (some {
                  ts := now, zone_id := zid, zone_type := zs.2.1, confidence := conf
                  opt_state := ref.opt_state.getD "UNKNOWN"
                  state := driving_state, is_responding := is_responding
                  current_speed_kmh := sm.1 * (18/5)
                  optimal_speed_kmh := opt_speed * (18/5)
                  speed_diff_pct :=
                    if opt_speed > 0 then (sm.1 - opt_speed) / opt_speed * 100 else 0
                  current_power_w := sm.2, optimal_power_w := opt_power
                  power_diff_w := sm.2 - opt_power
                  cue_key := ck.1, cue_text := ck.2
                  opt_speed_kmh := opt_speed * (18/5), opt_power_w := opt_power
                  speed_kmh := sm.1 * (18/5), power_w := sm.2 }), σ5)

/-! ### Traces of calls on one `Coach` instance -/

/-- Whether a call reaches stage 5 (zone assignment), and the
arc-length it reaches it with: the stages before it, shared
definitionally with `ingest`. -/
def reachS (S : Session) (σ : CoachState) (msg : Msg) (now : ℚ) : Option ℚ :=
  match parseSample S.cfg msg now with
  | .ok (some p) =>
    let gs := geoStage S σ p
    let σ2 := bufferStage S.cfg gs.1 gs.2
    if σ2.buf.length < S.cfg.MIN_SAMPLES_FOR_CUE then none else some gs.2.s_m
  | _ => none

/-- The cues emitted over a sequence of `ingest` calls, paired with the
wall-clock time of their call. -/
def emissionsOf (S : Session) : CoachState → List (Msg × ℚ) → List (Cue × ℚ)
  | _, [] => []
  | σ, (m, t) :: rest =>
    let r := ingest S σ m t
    (match r.1 with
     | .ok (some c) => [(c, t)]
     | _ => []) ++ emissionsOf S r.2 rest

/-- The confirmed-zone history over a sequence of calls (initial state
included). -/
def zoneIdsOf (S : Session) : CoachState → List (Msg × ℚ) → List (Option String)
  | σ, [] => [σ.last_zone_id]
  | σ, (m, t) :: rest => σ.last_zone_id :: zoneIdsOf S (ingest S σ m t).2 rest

/-- Number of confirmed zone transitions in a zone history. -/
def countChanges : List (Option String) → ℕ
  | a :: b :: rest => (if a ≠ b then 1 else 0) + countChanges (b :: rest)
  | _ => 0

/-- The arc-lengths with which successive calls reach stage 5. -/
def reachListOf (S : Session) : CoachState → List (Msg × ℚ) → List ℚ
  | _, [] => []
  | σ, (m, t) :: rest =>
    (match reachS S σ m t with
     | some s => [s]
     | none => []) ++ reachListOf S (ingest S σ m t).2 rest

/-! ### Auxiliary predicates and concrete data for the claims -/

/-- Decidable equality for `Except`, used to evaluate concrete
`ingest` outcomes. -/
instance {ε α : Type} [DecidableEq ε] [DecidableEq α] : DecidableEq (Except ε α)
  | .error e, .error f =>
    decidable_of_iff (e = f) ⟨fun h => h ▸ rfl, fun h => by injection h⟩
  | .error _, .ok _ => .isFalse fun h => Except.noConfusion h
  | .ok _, .error _ => .isFalse fun h => Except.noConfusion h
  | .ok a, .ok b =>
    decidable_of_iff (a = b) ⟨fun h => h ▸ rfl, fun h => by injection h⟩

/-- A JSON scalar that Python `float()` coerces without raising, or
`null`. -/
def goodValB : JVal → Bool
  | .null => true
  | .num _ => true
  | .str _ (some _) => true
  | .str _ none => false

/-- An optional field whose value, when present, is `goodValB`. -/
def goodOptB : Option JVal → Bool
  | none => true
  | some v => goodValB v

/-- The `ts` field is safe for line 42: either it is not a present
`null`, or a truthy coercible `timestamp` shadows it (a present `null`
`ts` reached by the fallback raises `TypeError`). -/
def goodTsB (msg : Msg) : Bool :=
  match msg.ts with
  | some .null =>
    (match msg.timestamp with
     | some v => pyTruthy v && goodValB v
     | none => false)
  | o => goodOptB o

/-- Messages on which `Coach.ingest` performs no failing `float()`
coercion: every present field is numeric, a float-coercible string, or
`null`, and a present `null` `ts` is shadowed by a usable
`timestamp`. -/
def goodMsgB (msg : Msg) : Bool :=
  goodOptB msg.timestamp && goodTsB msg && goodOptB msg.latitude
    && goodOptB msg.longitude && goodOptB msg.speed && goodOptB msg.power
    && goodOptB msg.current && goodOptB msg.voltage

/-- The three rate-limit clock maps of a state, bundled. -/
def rateMaps (σ : CoachState) :
    List (String × ℚ) × List (String × ℚ) × List (String × ℚ) :=
  (σ.last_cue_time, σ.last_cue_by_zone, σ.last_cue_by_type)

/-- The hysteresis memory of a state, bundled. -/
def zoneMem (σ : CoachState) : Option String × Option String × Option ℚ :=
  (σ.last_zone_id, σ.last_zone_type, σ.last_zone_s)

/-- A closed-loop track as the spec's data model describes it: arrays
of equal length ≥ 2, arc-length strictly increasing from `s[0] = 0`,
all arc-lengths at most the positive total length `L`, the final
vertex coinciding with the first when its arc-length equals `L`
(position `L ≡` position `0`), and no (near-)zero-length segments
(each `vv` at least the `1e-9` guard of the projection loop). -/
structure WellFormedTrack (t : Track) : Prop where
  ylen : t.y.length = t.x.length
  slen : t.s.length = t.x.length
  two_le : 2 ≤ t.x.length
  s_zero : sAt t 0 = 0
  s_mono : ∀ k, k < t.x.length → ∀ j, j < k → sAt t j < sAt t k
  s_le_L : ∀ j, j < t.x.length → sAt t j ≤ t.length_m
  L_pos : 0 < t.length_m
  closed : sAt t (t.x.length - 1) = t.length_m →
    vtxX t (t.x.length - 1) = vtxX t 0 ∧ vtxY t (t.x.length - 1) = vtxY t 0
  nondegen : ∀ j, j + 1 < t.x.length → 1 / 1000000000 ≤ segVV t j

/-- A configuration that cues after a single sample (used by the
concrete witnesses; every other value is the `src/config.py`
default). -/
def demoCfg : Config :=
  { defaultConfig with MIN_SAMPLES_FOR_CUE := 1, SMOOTH_WIN := 1 }

/-- A concrete closed-loop rectangle track (final vertex repeats the
first, `s` matches the geometric lengths). -/
def demoTrack : Track :=
  { x := [0, 100, 100, 0, 0], y := [0, 0, 50, 50, 0]
    s := [0, 100, 150, 250, 300], length_m := 300 }

/-- A concrete geometry model (values are irrelevant to every claim;
the witnesses just need one). -/
def demoGeo : GeoModel := { d2r := 1, cosr := fun _ => 1 }

/-- A one-zone memory table for the straight. -/
def demoZoneMemory : List (String × ZoneRef) :=
  [("STRAIGHT",
    { opt_speed_mps := 5, opt_power_w := 100000000
      opt_state := some "GREEN", confidence := some 1 })]

/-- A concrete session over the demo data. -/
def demoSession : Session :=
  { cfg := demoCfg, track := demoTrack, stop_lines_s := [], turn_segs := []
    zone_memory := demoZoneMemory, g := demoGeo }

/-- A valid sample at the origin, driving 36 km/h with 50 W. -/
def demoMsg : Msg :=
  { timestamp := some (.num 100), latitude := some (.num 0)
    longitude := some (.num 0), speed := some (.num 36), power := some (.num 50) }

/-! ## Theorems for the claims -/

/-- Helper: the turn loop returns the first matching segment, with the
accumulated index offset. -/
theorem scanTurns_first (s : ℚ) (turns : List TurnSeg) (j : ℕ) (i : ℕ)
    (hj : j < turns.length) (hhit : inTurnB s turns[j] = true)
    (hfirst : ∀ k (hk : k < j), inTurnB s (turns.get ⟨k, by omega⟩) = false) :
    scanTurns s turns i = some ("TURN_" ++ toString (i + j + 1)) := by
  induction turns generalizing i j with
  | nil => exact absurd hj (by simp)
  | cons z rest ih =>
    cases j with
    | zero =>
      simp only [List.getElem_cons_zero] at hhit
      simp [scanTurns, hhit]
    | succ j' =>
      have hz : inTurnB s z = false := by
        have := hfirst 0 (Nat.succ_pos j')
        simpa using this
      simp only [List.getElem_cons_succ] at hhit
      have hlen : j' < rest.length := by
        simp only [List.length_cons] at hj
        omega
      have hrec := ih j' (i + 1) hlen hhit (fun k hk => by
        have := hfirst (k + 1) (by omega)
        simpa using this)
      have harith : i + 1 + j' + 1 = i + (j' + 1) + 1 := by omega
      rw [harith] at hrec
      simp only [scanTurns, hz, Bool.false_eq_true, if_false]
      exact hrec

/-- C6: `assign_zone_id` is a function (exactly one `(zoneType,
zoneId)` per position), and whenever the position satisfies the
wrap-aware membership test of some turn segment, the result is `TURN`
with id `TURN_{index+1}` for the first matching segment, regardless of
the stop-approach windows. -/
theorem c6_turn_priority (s L app : ℚ) (stops : List StopLine) (turns : List TurnSeg)
    (j : ℕ) (hj : j < turns.length) (hhit : inTurnB s turns[j] = true)
    (hfirst : ∀ k (hk : k < j), inTurnB s (turns.get ⟨k, by omega⟩) = false) :
    assign_zone_id s stops turns L app = ("TURN", "TURN_" ++ toString (j + 1)) := by
  unfold assign_zone_id
  rw [scanTurns_first s turns j 0 hj hhit hfirst]
  rw [Nat.zero_add]

/-- Witness for C6: position 5 is inside the wrap-around turn
`[280, 10]` of a 300 m loop and also within 80 m of the stop line at
20 m; the result is still `TURN_1`. -/
theorem c6_turn_priority_witness :
    (0 : ℕ) < ([⟨280, 10⟩] : List TurnSeg).length
    ∧ inTurnB 5 (([⟨280, 10⟩] : List TurnSeg)[0]) = true
    ∧ assign_zone_id 5 [⟨20, 1⟩] [⟨280, 10⟩] 300 80 = ("TURN", "TURN_1") :=
  ⟨by decide, by decide,
    c6_turn_priority 5 300 80 [⟨20, 1⟩] [⟨280, 10⟩] 0 (by decide) (by decide)
      (fun k hk => absurd hk (by omega))⟩

/-- C3: in every evaluation that reaches cue selection, at most one
candidate is chosen (`cues[0]`), speed first: the chosen key is
`SPEED_HIGH` when the smoothed speed breaches (even if power also
breaches), else the zone-typed power key when power breaches, else
nothing. -/
theorem c3_candidate_selection (zone_id : String) (zone_type : Option String)
    (sm_speed sm_power opt_speed opt_power marginPct marginW : ℚ) :
    (cueCandidates zone_id zone_type
        (decide (sm_speed ≤ opt_speed * (1 + marginPct)))
        (decide (sm_power ≤ opt_power + marginW))).head?.map Prod.fst
      = if opt_speed * (1 + marginPct) < sm_speed then some "SPEED_HIGH"
        else if opt_power + marginW < sm_power then
          some (if zone_type = some "TURN" then "TURN_POWER_SPIKE"
            else if zone_type = some "STOP_APPROACH" then "STOP_APPROACH_POWER"
            else "POWER_HIGH")
        else none := by
  by_cases h1 : sm_speed ≤ opt_speed * (1 + marginPct)
  · rw [if_neg (not_lt.mpr h1)]
    by_cases h2 : sm_power ≤ opt_power + marginW
    · rw [if_neg (not_lt.mpr h2)]
      simp [cueCandidates, decide_eq_true h1, decide_eq_true h2]
    · rw [if_pos (not_le.mp h2)]
      simp [cueCandidates, decide_eq_true h1, decide_eq_false h2]
      unfold powerCue
      split_ifs <;> rfl
  · rw [if_pos (not_le.mp h1)]
    simp [cueCandidates, decide_eq_false h1]

/-- C4: the responding flag is true exactly when the zone's previously
recorded state was red and the base state is now green, or both are
red and speed or power moved strictly toward its optimum (strictly
decreased while still above it, or crossed to at-or-below it from
strictly above); the spec's instance (previous red at speed 30,
optimum 25, current 28) yields true, and the final driving state is
green iff the base state is green or the flag is true. -/
theorem c4_responding (last_state : String) (last_speed last_power : ℚ)
    (base_state : String) (sm_speed sm_power opt_speed opt_power : ℚ) :
    (respondingCheck last_state last_speed last_power base_state sm_speed sm_power
        opt_speed opt_power = true
      ↔ ((last_state = "red" ∧ base_state = "green")
        ∨ (last_state = "red" ∧ base_state = "red"
          ∧ (((sm_speed < last_speed ∧ opt_speed < sm_speed)
              ∨ (sm_speed ≤ opt_speed ∧ opt_speed < last_speed))
            ∨ ((sm_power < last_power ∧ opt_power < sm_power)
              ∨ (sm_power ≤ opt_power ∧ opt_power < last_power))))))
    ∧ respondingCheck "red" 30 last_power "green" 28 sm_power 25 opt_power = true
    ∧ respondingCheck "red" 30 last_power "red" 28 sm_power 25 opt_power = true
    ∧ (drivingStateOf base_state
        (respondingCheck last_state last_speed last_power base_state sm_speed sm_power
          opt_speed opt_power) = "green"
      ↔ (base_state = "green"
        ∨ respondingCheck last_state last_speed last_power base_state sm_speed sm_power
            opt_speed opt_power = true)) := by
  refine ⟨?_, ?_, ?_, ?_⟩
  · unfold respondingCheck improvedTowardOpt
    split_ifs with hgreen hred
    · simp [hgreen]
    · simp only [Bool.or_eq_true, decide_eq_true_eq]
      constructor
      · intro h
        exact Or.inr ⟨hred.1, hred.2, by tauto⟩
      · intro h
        rcases h with h | h
        · exact absurd h.2 (by simp_all)
        · tauto
    · constructor
      · intro h
        exact absurd h (by simp)
      · intro h
        rcases h with h | h
        · exact absurd ⟨h.1, h.2⟩ hgreen
        · exact absurd ⟨h.1, h.2.1⟩ hred
  · unfold respondingCheck
    simp
  · unfold respondingCheck improvedTowardOpt
    norm_num
  · unfold drivingStateOf
    split_ifs with h
    · simpa using h
    · constructor
      · intro hc
        exact absurd hc (by decide)
      · intro hc
        exact absurd hc h

/-- C10: a falsy `timestamp` (the number 0, an empty string, `null`)
is never used as the event time: line 42 falls back to the `ts` field
when present and to the wall clock otherwise, and the whole `ingest`
call behaves exactly as if `timestamp` were absent, so buffering and
pruning are driven by the fallback time. -/
theorem c10_falsy_timestamp (S : Session) (σ : CoachState) (msg : Msg) (now : ℚ)
    (v : JVal) (hv : msg.timestamp = some v) (hfalsy : pyTruthy v = false) :
    resolveTs msg now = tsFallback msg now
    ∧ (∀ q : ℚ, msg.ts = some (.num q) → resolveTs msg now = .ok q)
    ∧ (msg.ts = none → resolveTs msg now = .ok now)
    ∧ ingest S σ msg now = ingest S σ { msg with timestamp := none } now := by
  have h1 : resolveTs msg now = tsFallback msg now := by
    unfold resolveTs
    rw [hv]
    simp [hfalsy]
  refine ⟨h1, ?_, ?_, ?_⟩
  · intro q hq
    rw [h1]
    unfold tsFallback
    rw [hq]
    rfl
  · intro hq
    rw [h1]
    unfold tsFallback
    rw [hq]
  · have hrt : resolveTs msg now = resolveTs { msg with timestamp := none } now := by
      rw [h1]
      rfl
    have hps : parseSample S.cfg msg now = parseSample S.cfg { msg with timestamp := none } now := by
      unfold parseSample
      rw [hrt]
    unfold ingest
    rw [hps]

/-- Witness for C10: with `timestamp = 0` and `ts = 55`, the event
time is 55 and the call equals the timestamp-free call. -/
theorem c10_falsy_timestamp_witness :
    ({ demoMsg with timestamp := some (.num 0), ts := some (.num 55) } : Msg).timestamp
        = some (.num 0)
    ∧ pyTruthy (.num 0) = false
    ∧ resolveTs { demoMsg with timestamp := some (.num 0), ts := some (.num 55) } 7
        = .ok 55
    ∧ ingest demoSession initState
        { demoMsg with timestamp := some (.num 0), ts := some (.num 55) } 7
      = ingest demoSession initState
        { demoMsg with ts := some (.num 55), timestamp := none } 7 := by
  have h := c10_falsy_timestamp demoSession initState
    { demoMsg with timestamp := some (.num 0), ts := some (.num 55) } 7 (.num 0)
    rfl (by decide)
  exact ⟨rfl, by decide, h.2.1 55 rfl, h.2.2.2⟩

/-- Counterexample to C1 as stated: a sample with no `power` field and
in-range `voltage = 100`, `current = 2` resolves to `100 × |2| = 200` W
(`coach.py` line 93 multiplies the voltage value as-is), not to the
claimed `(100/1000) × |2| = 0.2` W. -/
theorem c1_power_fallback_counterexample :
    parseSample defaultConfig
        { timestamp := some (.num 1), latitude := some (.num 0)
          longitude := some (.num 0), speed := some (.num 36)
          voltage := some (.num 100), current := some (.num 2) } 5
      = .ok (some { ts := 1, lat := 0, lon := 0, speed_mps := 10
                    power_w := 200, current_a := some 2 })
    ∧ (200 : ℚ) ≠ 100 / 1000 * |(2 : ℚ)| := by
  constructor
  · with_unfolding_all rfl
  · norm_num

/-- C1 amended: for every sample lacking a usable `power` field
(missing, `null`, or coercing outside the power sanity bounds) but
carrying in-range numeric `voltage` and `current`, the power resolved
by `Coach.ingest` is `voltage × |current|` — the voltage value is used
as-is, with no division by 1000 (the mV→V conversion lives in the
replay tool, outside `Coach.ingest`). -/
theorem c1_power_fallback_amended (cfg : Config) (msg : Msg) (now : ℚ) (v i : ℚ)
    (hv : msg.voltage = some (.num v))
    (hv1 : cfg.VOLTAGE_MIN_V ≤ v) (hv2 : v ≤ cfg.VOLTAGE_MAX_V)
    (hi : msg.current = some (.num i))
    (hi1 : cfg.CURRENT_MIN_A ≤ i) (hi2 : i ≤ cfg.CURRENT_MAX_A)
    (hp : fieldOrNone msg.power = none
      ∨ ∃ w q, fieldOrNone msg.power = some w ∧ pyFloat w = .ok q
          ∧ (q < cfg.POWER_MIN_W ∨ q > cfg.POWER_MAX_W)) :
    ∀ p : Parsed, parseSample cfg msg now = .ok (some p) → p.power_w = v * |i| := by
  intro p hps
  unfold parseSample at hps
  cases hts : resolveTs msg now <;> rw [hts] at hps
  case error e => simp at hps
  case ok ts =>
  cases hlat : fieldOrNone msg.latitude <;> rw [hlat] at hps
  case none => simp at hps
  case some latv =>
  cases hlon : fieldOrNone msg.longitude <;> rw [hlon] at hps
  case none => simp at hps
  case some lonv =>
  cases hspd : fieldOrNone msg.speed <;> rw [hspd] at hps
  case none => simp at hps
  case some spdv =>
  simp only at hps
  cases hplat : pyFloat latv <;> rw [hplat] at hps
  case error e => simp at hps
  case ok lat =>
  cases hplon : pyFloat lonv <;> rw [hplon] at hps
  case error e => simp at hps
  case ok lon =>
  cases hpspd : pyFloat spdv <;> rw [hpspd] at hps
  case error e => simp at hps
  case ok speed_kmh =>
  simp only at hps
  rw [hv, hi] at hps
  have hnv : ¬(v < cfg.VOLTAGE_MIN_V ∨ v > cfg.VOLTAGE_MAX_V) := by
    push_neg
    exact ⟨hv1, hv2⟩
  have hni : ¬(i < cfg.CURRENT_MIN_A ∨ i > cfg.CURRENT_MAX_A) := by
    push_neg
    exact ⟨hi1, hi2⟩
  split at hps
  · simp at hps
  · rcases hp with hp | ⟨w, q, hw, hwq, hq⟩
    · rw [hp] at hps
      simp only [fieldOrNone, floatOpt, pyFloat, sanitizeRange, if_neg hnv, if_neg hni,
        resolvePowerFallback] at hps
      split at hps
      · simp at hps
      · simp only [Except.ok.injEq, Option.some.injEq] at hps
        rw [← hps]
    · rw [hw] at hps
      simp only [floatOpt] at hps
      rw [hwq] at hps
      simp only [fieldOrNone, floatOpt, pyFloat, sanitizeRange, if_neg hnv, if_neg hni,
        if_pos hq, resolvePowerFallback] at hps
      split at hps
      · simp at hps
      · simp only [Except.ok.injEq, Option.some.injEq] at hps
        rw [← hps]

/-- Witness for the amended C1: the counterexample message satisfies
every hypothesis and resolves to 200 W. -/
theorem c1_power_fallback_witness :
    parseSample defaultConfig
        { timestamp := some (.num 1), latitude := some (.num 0)
          longitude := some (.num 0), speed := some (.num 36)
          voltage := some (.num 100), current := some (.num 2) } 5
      = .ok (some { ts := 1, lat := 0, lon := 0, speed_mps := 10
                    power_w := 200, current_a := some 2 })
    ∧ (200 : ℚ) = 100 * |(2 : ℚ)| := by
  constructor
  · with_unfolding_all rfl
  · have h := c1_power_fallback_amended defaultConfig
      { timestamp := some (.num 1), latitude := some (.num 0)
        longitude := some (.num 0), speed := some (.num 36)
        voltage := some (.num 100), current := some (.num 2) } 5 100 2
      rfl (by norm_num [defaultConfig]) (by norm_num [defaultConfig])
      rfl (by norm_num [defaultConfig]) (by norm_num [defaultConfig])
      (Or.inl rfl)
      { ts := 1, lat := 0, lon := 0, speed_mps := 10, power_w := 200, current_a := some 2 }
      (by with_unfolding_all rfl)
    simpa using h

/-- Helper: a good non-null scalar coerces. -/
theorem pyFloat_ok_of_goodVal (v : JVal) (hg : goodValB v = true) (hn : v ≠ .null) :
    ∃ q, pyFloat v = .ok q := by
  cases v with
  | num q => exact ⟨q, rfl⟩
  | str s p =>
    cases p with
    | some q => exact ⟨q, rfl⟩
    | none => simp [goodValB] at hg
  | null => exact absurd rfl hn

/-- Helper: `fieldOrNone` never yields a `null`. -/
theorem fieldOrNone_ne_null (o : Option JVal) (v : JVal) (h : fieldOrNone o = some v) :
    v ≠ .null := by
  cases o with
  | none => simp [fieldOrNone] at h
  | some w =>
    cases w with
    | null => simp [fieldOrNone] at h
    | num q =>
      simp only [fieldOrNone] at h
      cases h
      simp
    | str s p =>
      simp only [fieldOrNone] at h
      cases h
      simp

/-- Helper: a present field of a good optional is good. -/
theorem goodVal_of_goodOpt (o : Option JVal) (v : JVal) (hg : goodOptB o = true)
    (h : fieldOrNone o = some v) : goodValB v = true := by
  cases o with
  | none => simp [fieldOrNone] at h
  | some w =>
    cases w with
    | null => simp [fieldOrNone] at h
    | num q =>
      simp only [fieldOrNone] at h
      cases h
      exact hg
    | str s p =>
      simp only [fieldOrNone] at h
      cases h
      exact hg

/-- Helper: optional coercion of a good field succeeds. -/
theorem floatOpt_ok_of_good (o : Option JVal) (hg : goodOptB o = true) :
    ∃ r, floatOpt (fieldOrNone o) = .ok r := by
  cases hf : fieldOrNone o with
  | none => exact ⟨none, rfl⟩
  | some v =>
    obtain ⟨q, hq⟩ := pyFloat_ok_of_goodVal v (goodVal_of_goodOpt o v hg hf)
      (fieldOrNone_ne_null o v hf)
    exact ⟨some q, by simp [floatOpt, hq]⟩

/-- Helper: the timestamp coercion of line 42 succeeds on good
messages. -/
theorem resolveTs_ok_of_good (msg : Msg) (now : ℚ) (ht : goodOptB msg.timestamp = true)
    (hts : goodTsB msg = true) : ∃ q, resolveTs msg now = .ok q := by
  have hfall : (∀ w, msg.ts = some w → goodValB w = true ∧ w ≠ .null) →
      ∃ q, tsFallback msg now = .ok q := by
    intro hw
    unfold tsFallback
    cases hw2 : msg.ts with
    | none => exact ⟨now, rfl⟩
    | some w =>
      obtain ⟨hg, hn⟩ := hw w hw2
      exact pyFloat_ok_of_goodVal w hg hn
  unfold resolveTs
  cases hcase : msg.timestamp with
  | none =>
    apply hfall
    intro w hw
    unfold goodTsB at hts
    rw [hw, hcase] at hts
    cases w with
    | null => simp at hts
    | num q => exact ⟨hts, by simp⟩
    | str s p =>
      refine ⟨hts, by simp⟩
  | some v =>
    simp only
    by_cases htr : pyTruthy v = true
    · rw [htr]
      simp only [if_true]
      apply pyFloat_ok_of_goodVal v (by rw [hcase] at ht; exact ht)
      intro hnull
      rw [hnull] at htr
      simp [pyTruthy] at htr
    · rw [Bool.not_eq_true] at htr
      rw [htr]
      simp only [Bool.false_eq_true, if_false]
      apply hfall
      intro w hw
      unfold goodTsB at hts
      rw [hw] at hts
      cases w with
      | null =>
        rw [hcase] at hts
        simp only [Bool.and_eq_true] at hts
        rw [hts.1] at htr
        simp at htr
      | num q => exact ⟨hts, by simp⟩
      | str s p => exact ⟨hts, by simp⟩

/-- Helper: on a good message the whole field-extraction stage
(`coach.py` lines 40-102) returns normally. -/
theorem parseSample_ok_of_good (cfg : Config) (msg : Msg) (now : ℚ)
    (h : goodMsgB msg = true) : ∃ o, parseSample cfg msg now = .ok o := by
  unfold goodMsgB at h
  simp only [Bool.and_eq_true] at h
  obtain ⟨⟨⟨⟨⟨⟨⟨h1, h2⟩, h3⟩, h4⟩, h5⟩, h6⟩, h7⟩, h8⟩ := h
  obtain ⟨ts, hts⟩ := resolveTs_ok_of_good msg now h1 h2
  unfold parseSample
  rw [hts]
  cases hlat : fieldOrNone msg.latitude with
  | none => exact ⟨none, rfl⟩
  | some latv =>
    cases hlon : fieldOrNone msg.longitude with
    | none => exact ⟨none, rfl⟩
    | some lonv =>
      cases hspd : fieldOrNone msg.speed with
      | none => exact ⟨none, rfl⟩
      | some spdv =>
        simp only
        obtain ⟨lat, hplat⟩ := pyFloat_ok_of_goodVal latv
          (goodVal_of_goodOpt _ _ h3 hlat) (fieldOrNone_ne_null _ _ hlat)
        obtain ⟨lon, hplon⟩ := pyFloat_ok_of_goodVal lonv
          (goodVal_of_goodOpt _ _ h4 hlon) (fieldOrNone_ne_null _ _ hlon)
        obtain ⟨spd, hpspd⟩ := pyFloat_ok_of_goodVal spdv
          (goodVal_of_goodOpt _ _ h5 hspd) (fieldOrNone_ne_null _ _ hspd)
        obtain ⟨rv, hrv⟩ := floatOpt_ok_of_good msg.voltage h8
        obtain ⟨ri, hri⟩ := floatOpt_ok_of_good msg.current h7
        obtain ⟨rp, hrp⟩ := floatOpt_ok_of_good msg.power h6
        rw [hplat, hplon, hpspd, hrv, hri, hrp]
        simp only
        repeat' split
        all_goals exact ⟨_, rfl⟩

/-- Counterexample to C2 as stated: a message whose `longitude` is the
non-numeric string `"abc"` makes line 54's `float()` raise
`ValueError` — `ingest` does not return normally on every message. -/
theorem c2_no_raise_counterexample :
    ingest demoSession initState
        { timestamp := some (.num 1), latitude := some (.num 1)
          longitude := some (.str "abc" none), speed := some (.num 10)
          power := some (.num 50) } 3
      = (.error .valueError, initState) := by
  with_unfolding_all rfl

/-- C2 amended: for every message whose present fields are numeric,
float-coercible strings, or `null` (missing, `null` and out-of-range
fields included) — and whose `ts`, when a present `null`, is shadowed
by a usable truthy `timestamp` — `ingest` returns normally with a cue
or nothing; the only failures across the public entry point are
`float()` coercions of non-numeric strings (`ValueError`) or of a
`null` reached by the `ts` fallback (`TypeError`). -/
theorem c2_no_raise_amended (S : Session) (σ : CoachState) (msg : Msg) (now : ℚ)
    (h : goodMsgB msg = true) :
    ∃ o σ2, ingest S σ msg now = (.ok o, σ2) := by
  obtain ⟨o, ho⟩ := parseSample_ok_of_good S.cfg msg now h
  unfold ingest
  rw [ho]
  cases o with
  | none => exact ⟨none, σ, rfl⟩
  | some p =>
    simp only
    repeat' split
    all_goals exact ⟨_, _, rfl⟩

/-- Witness for the amended C2: the demo message is good and the call
returns normally. -/
theorem c2_no_raise_witness :
    goodMsgB demoMsg = true
    ∧ ∃ o σ2, ingest demoSession initState demoMsg 100 = (.ok o, σ2) :=
  ⟨by decide, c2_no_raise_amended demoSession initState demoMsg 100 (by decide)⟩

/-- Helper: when latitude, longitude or speed is absent or null, the
extraction stage drops the sample right after the timestamp
coercion. -/
theorem parseSample_missing_field (cfg : Config) (msg : Msg) (now : ℚ)
    (h : fieldOrNone msg.latitude = none ∨ fieldOrNone msg.longitude = none
      ∨ fieldOrNone msg.speed = none) :
    parseSample cfg msg now
      = (match resolveTs msg now with
         | .error e => .error e
         | .ok _ => .ok none) := by
  unfold parseSample
  cases hts : resolveTs msg now
  · rfl
  · cases hlat : fieldOrNone msg.latitude
      <;> cases hlon : fieldOrNone msg.longitude
      <;> cases hspd : fieldOrNone msg.speed
      <;> first
        | rfl
        | (exfalso
           rcases h with h | h | h <;> simp_all)

/-- Counterexample to C9 as stated: a sample with `latitude` absent
but `timestamp` a truthy non-numeric string does not return "no cue" —
line 42 raises `ValueError` before the latitude check (state is still
untouched). -/
theorem c9_malformed_counterexample :
    ({ timestamp := some (.str "x" none), longitude := some (.num 1)
       speed := some (.num 10) } : Msg).latitude = none
    ∧ ingest demoSession initState
        { timestamp := some (.str "x" none), longitude := some (.num 1)
          speed := some (.num 10) } 3
      = (.error .valueError, initState) :=
  ⟨rfl, by with_unfolding_all rfl⟩

/-- C9 amended: for every sample whose latitude, longitude, or speed
field is absent or null, `ingest` leaves every piece of session state
exactly as it was; and provided the timestamp coercion of line 42
succeeds (it does unless `timestamp`/`ts` holds a non-coercible
string or a fallback-reached `null`), the call returns no cue. -/
theorem c9_malformed_drop_amended (S : Session) (σ : CoachState) (msg : Msg) (now : ℚ)
    (h : fieldOrNone msg.latitude = none ∨ fieldOrNone msg.longitude = none
      ∨ fieldOrNone msg.speed = none) :
    (ingest S σ msg now).2 = σ
    ∧ (∀ q : ℚ, resolveTs msg now = .ok q → ingest S σ msg now = (.ok none, σ)) := by
  have hps := parseSample_missing_field S.cfg msg now h
  constructor
  · unfold ingest
    rw [hps]
    cases hts : resolveTs msg now <;> rfl
  · intro q hq
    unfold ingest
    rw [hps, hq]

/-- Witness for the amended C9: a null-latitude sample on the demo
session is dropped with all state intact. -/
theorem c9_malformed_drop_witness :
    fieldOrNone ({ demoMsg with latitude := some .null } : Msg).latitude = none
    ∧ (ingest demoSession initState { demoMsg with latitude := some .null } 100).2
        = initState
    ∧ ingest demoSession initState { demoMsg with latitude := some .null } 100
        = (.ok none, initState) := by
  have h := c9_malformed_drop_amended demoSession initState
    { demoMsg with latitude := some .null } 100 (Or.inl rfl)
  exact ⟨rfl, h.1, h.2 100 rfl⟩

/-- Helper: reading back a freshly set key. -/
theorem mapGet_mapSet_self {α : Type} (m : List (String × α)) (k : String) (v d : α) :
    mapGet (mapSet m k v) k d = v := by
  induction m with
  | nil => simp [mapGet, mapSet, List.lookup]
  | cons kv rest ih =>
    obtain ⟨k', v'⟩ := kv
    by_cases h : k' = k
    · subst h
      simp [mapGet, mapSet, List.lookup]
    · have hb : (k == k') = false := by simp [Ne.symm h]
      simp only [mapSet, if_neg h, mapGet, List.lookup, hb]
      exact ih

/-- Helper: setting one key does not move any other key. -/
theorem mapGet_mapSet_ne {α : Type} (m : List (String × α)) (k k' : String) (v d : α)
    (h : k' ≠ k) : mapGet (mapSet m k v) k' d = mapGet m k' d := by
  have hb : (k' == k) = false := by simp [h]
  induction m with
  | nil => simp only [mapSet, mapGet, List.lookup, hb]
  | cons kv rest ih =>
    obtain ⟨k'', v''⟩ := kv
    by_cases hk : k'' = k
    · subst hk
      simp only [mapSet, if_pos rfl, mapGet, List.lookup, hb]
    · simp only [mapSet, if_neg hk, mapGet, List.lookup]
      by_cases hk2 : k' = k''
      · subst hk2
        simp only [beq_self_eq_true]
      · have hb2 : (k' == k'') = false := by simp [hk2]
        simp only [hb2]
        exact ih

/-- Helper: the GPS-origin stage never touches the rate-limit maps. -/
theorem rateMaps_geoStage (S : Session) (σ : CoachState) (p : Parsed) :
    rateMaps (geoStage S σ p).1 = rateMaps σ := by
  unfold geoStage
  by_cases h : σ.lat0 = none <;> simp [h, rateMaps]

/-- Helper: the buffer stage never touches the rate-limit maps. -/
theorem rateMaps_bufferStage (cfg : Config) (σ : CoachState) (smp : Sample) :
    rateMaps (bufferStage cfg σ smp) = rateMaps σ := rfl

/-- Helper: the zone stage never touches the rate-limit maps. -/
theorem rateMaps_zoneStage (cfg : Config) (σ : CoachState) (a b : String) (s : ℚ) :
    rateMaps (zoneStage cfg σ a b s).1 = rateMaps σ := by
  unfold zoneStage zoneTrackUpdate
  dsimp only
  split <;> rfl

/-- Helper: the per-zone cue-state update never touches the rate-limit
maps. -/
theorem rateMaps_cueStateUpdate (σ : CoachState) (zid ds : String) (sm : ℚ × ℚ) :
    rateMaps (cueStateUpdate σ zid ds sm) = rateMaps σ := rfl

/-- Helper: per-field form of `rateMaps_geoStage`. -/
theorem geoStage_lct (S : Session) (σ : CoachState) (p : Parsed) :
    (geoStage S σ p).1.last_cue_time = σ.last_cue_time :=
  congrArg Prod.fst (rateMaps_geoStage S σ p)

/-- Helper: per-field form of `rateMaps_geoStage`. -/
theorem geoStage_lbz (S : Session) (σ : CoachState) (p : Parsed) :
    (geoStage S σ p).1.last_cue_by_zone = σ.last_cue_by_zone :=
  congrArg (fun x => x.2.1) (rateMaps_geoStage S σ p)

/-- Helper: per-field form of `rateMaps_geoStage`. -/
theorem geoStage_lbt (S : Session) (σ : CoachState) (p : Parsed) :
    (geoStage S σ p).1.last_cue_by_type = σ.last_cue_by_type :=
  congrArg (fun x => x.2.2) (rateMaps_geoStage S σ p)

/-- Helper: per-field form of `rateMaps_zoneStage`. -/
theorem zoneStage_lct (cfg : Config) (σ : CoachState) (a b : String) (s : ℚ) :
    (zoneStage cfg σ a b s).1.last_cue_time = σ.last_cue_time :=
  congrArg Prod.fst (rateMaps_zoneStage cfg σ a b s)

/-- Helper: per-field form of `rateMaps_zoneStage`. -/
theorem zoneStage_lbz (cfg : Config) (σ : CoachState) (a b : String) (s : ℚ) :
    (zoneStage cfg σ a b s).1.last_cue_by_zone = σ.last_cue_by_zone :=
  congrArg (fun x => x.2.1) (rateMaps_zoneStage cfg σ a b s)

/-- Helper: per-field form of `rateMaps_zoneStage`. -/
theorem zoneStage_lbt (cfg : Config) (σ : CoachState) (a b : String) (s : ℚ) :
    (zoneStage cfg σ a b s).1.last_cue_by_type = σ.last_cue_by_type :=
  congrArg (fun x => x.2.2) (rateMaps_zoneStage cfg σ a b s)

/-- Helper: when the three gates pass, the emitted state is the input
state with all three clocks stamped to `now`, and the same-cue gate
implies the minimum separation from the previous stamp. -/
theorem rateStage_some (cfg : Config) (σ : CoachState) (zid key : String) (now : ℚ)
    (σ5 : CoachState) (h : rateStage cfg σ zid key now = some σ5) :
    σ5 = { σ with
      last_cue_time := mapSet σ.last_cue_time key now
      last_cue_by_zone := mapSet σ.last_cue_by_zone zid now
      last_cue_by_type := mapSet σ.last_cue_by_type (cueTypeOf key) now }
    ∧ cfg.MIN_SECONDS_BETWEEN_SAME_CUE ≤ now - mapGet σ.last_cue_time key 0 := by
  unfold rateStage at h
  by_cases h1 : now - mapGet σ.last_cue_time key 0 < cfg.MIN_SECONDS_BETWEEN_SAME_CUE
  · rw [if_pos h1] at h
    exact absurd h (by simp)
  · rw [if_neg h1] at h
    by_cases h2 : now - mapGet σ.last_cue_by_zone zid 0 < cfg.CUE_COOLDOWN_BY_ZONE
    · rw [if_pos h2] at h
      exact absurd h (by simp)
    · rw [if_neg h2] at h
      by_cases h3 : now - mapGet σ.last_cue_by_type (cueTypeOf key) 0 < cfg.CUE_COOLDOWN_BY_TYPE
      · rw [if_pos h3] at h
        exact absurd h (by simp)
      · rw [if_neg h3] at h
        simp only [Option.some.injEq] at h
        exact ⟨h.symm, not_lt.mp h1⟩

/-- Helper: a call that emits no cue leaves all three rate-limit maps
untouched (this covers both early drops and rate-limited
candidates). -/
theorem ingest_drop_rateMaps (S : Session) (σ : CoachState) (msg : Msg) (now : ℚ)
    (r : Except PyErr (Option Cue)) (σ' : CoachState)
    (h : ingest S σ msg now = (r, σ')) (hr : ∀ c : Cue, r ≠ .ok (some c)) :
    rateMaps σ' = rateMaps σ := by
  unfold ingest at h
  cases hps : parseSample S.cfg msg now <;> rw [hps] at h
  case error e =>
    injection h with h1 h2
    subst h2
    rfl
  case ok o =>
  cases o
  case none =>
    injection h with h1 h2
    subst h2
    rfl
  case some p =>
  simp only at h
  repeat' split at h
  all_goals injection h with h1 h2
  all_goals subst h2
  all_goals
    first
    | exact absurd h1.symm (hr _)
    | simp [rateMaps_cueStateUpdate, rateMaps_zoneStage, rateMaps_bufferStage, rateMaps_geoStage]

/-- Helper: a call that emits a cue stamps all three cooldown clocks
to the call's wall-clock time, and the same-cue gate guarantees the
minimum separation from the previous stamp of that cue key. -/
theorem ingest_emit_rateMaps (S : Session) (σ : CoachState) (msg : Msg) (now : ℚ)
    (c : Cue) (σ' : CoachState) (h : ingest S σ msg now = (.ok (some c), σ')) :
    σ'.last_cue_time = mapSet σ.last_cue_time c.cue_key now
    ∧ σ'.last_cue_by_zone = mapSet σ.last_cue_by_zone c.zone_id now
    ∧ σ'.last_cue_by_type = mapSet σ.last_cue_by_type (cueTypeOf c.cue_key) now
    ∧ S.cfg.MIN_SECONDS_BETWEEN_SAME_CUE ≤ now - mapGet σ.last_cue_time c.cue_key 0 := by
  unfold ingest at h
  cases hps : parseSample S.cfg msg now <;> rw [hps] at h
  case error e => exact absurd h (by simp)
  case ok o =>
  cases o
  case none => exact absurd h (by simp)
  case some p =>
  simp only at h
  repeat' split at h
  all_goals injection h with h1 h2
  all_goals try exact Option.noConfusion (Except.ok.inj h1)
  all_goals subst h2
  all_goals obtain ⟨h5, hgate⟩ :=
    rateStage_some _ _ _ _ _ _ (show rateStage _ _ _ _ _ = some _ by assumption)
  all_goals subst h5
  all_goals simp only [Except.ok.injEq, Option.some.injEq] at h1
  all_goals subst h1
  all_goals refine ⟨?_, ?_, ?_, ?_⟩
  all_goals simp only [cueStateUpdate, bufferStage, zoneStage_lct, zoneStage_lbz, zoneStage_lbt,
    geoStage_lct, geoStage_lbz, geoStage_lbt] at hgate ⊢
  all_goals first
    | rfl
    | exact hgate

/-- Helper: over any call sequence, if every past emission of a key is
no later than that key's cooldown stamp, the emission list stays
separated by the same-cue cooldown. -/
theorem emissions_pairwise_aux (S : Session)
    (hd : 0 ≤ S.cfg.MIN_SECONDS_BETWEEN_SAME_CUE) :
    ∀ (calls : List (Msg × ℚ)) (σ : CoachState) (ems : List (Cue × ℚ)),
      (∀ p ∈ ems, p.2 ≤ mapGet σ.last_cue_time p.1.cue_key 0) →
      List.Pairwise (fun a b : Cue × ℚ => a.1.cue_key = b.1.cue_key →
        a.2 + S.cfg.MIN_SECONDS_BETWEEN_SAME_CUE ≤ b.2) ems →
      List.Pairwise (fun a b : Cue × ℚ => a.1.cue_key = b.1.cue_key →
        a.2 + S.cfg.MIN_SECONDS_BETWEEN_SAME_CUE ≤ b.2) (ems ++ emissionsOf S σ calls) := by
  intro calls
  induction calls with
  | nil =>
    intro σ ems hinv hpw
    simpa [emissionsOf] using hpw
  | cons ct rest ih =>
    intro σ ems hinv hpw
    obtain ⟨m, t⟩ := ct
    rcases hig : ingest S σ m t with ⟨r1, σ'⟩
    cases r1 with
    | error e =>
      have hrm : rateMaps σ' = rateMaps σ :=
        ingest_drop_rateMaps S σ m t _ _ hig (by intro c; simp)
      have hlct : σ'.last_cue_time = σ.last_cue_time := congrArg Prod.fst hrm
      have hes : emissionsOf S σ ((m, t) :: rest) = emissionsOf S σ' rest := by
        simp [emissionsOf, hig]
      rw [hes]
      exact ih σ' ems (by rw [hlct]; exact hinv) hpw
    | ok o =>
      cases o with
      | none =>
        have hrm : rateMaps σ' = rateMaps σ :=
          ingest_drop_rateMaps S σ m t _ _ hig (by intro c; simp)
        have hlct : σ'.last_cue_time = σ.last_cue_time := congrArg Prod.fst hrm
        have hes : emissionsOf S σ ((m, t) :: rest) = emissionsOf S σ' rest := by
          simp [emissionsOf, hig]
        rw [hes]
        exact ih σ' ems (by rw [hlct]; exact hinv) hpw
      | some c =>
        obtain ⟨e1, e2, e3, egate⟩ := ingest_emit_rateMaps S σ m t c σ' hig
        have hes : emissionsOf S σ ((m, t) :: rest) = (c, t) :: emissionsOf S σ' rest := by
          simp [emissionsOf, hig]
        rw [hes]
        have hR : ∀ p ∈ ems, p.1.cue_key = c.cue_key →
            p.2 + S.cfg.MIN_SECONDS_BETWEEN_SAME_CUE ≤ t := by
          intro p hp hkey
          have h1 := hinv p hp
          rw [hkey] at h1
          linarith
        have hinv' : ∀ p ∈ ems ++ [(c, t)], p.2 ≤ mapGet σ'.last_cue_time p.1.cue_key 0 := by
          intro p hp
          rw [e1]
          rcases List.mem_append.mp hp with hp | hp
          · by_cases hkey : p.1.cue_key = c.cue_key
            · rw [hkey, mapGet_mapSet_self]
              have h1 := hinv p hp
              rw [hkey] at h1
              linarith
            · rw [mapGet_mapSet_ne _ _ _ _ _ hkey]
              exact hinv p hp
          · simp only [List.mem_singleton] at hp
            subst hp
            rw [mapGet_mapSet_self]
        have hpw' : List.Pairwise (fun a b : Cue × ℚ => a.1.cue_key = b.1.cue_key →
            a.2 + S.cfg.MIN_SECONDS_BETWEEN_SAME_CUE ≤ b.2) (ems ++ [(c, t)]) := by
          rw [List.pairwise_append]
          refine ⟨hpw, List.pairwise_singleton _ _, ?_⟩
          intro a ha b hb
          simp only [List.mem_singleton] at hb
          subst hb
          exact hR a ha
        have := ih σ' (ems ++ [(c, t)]) hinv' hpw'
        simpa [List.append_assoc] using this

/-- C5: over every sequence of `ingest` calls on one fresh `Coach`
instance, any two emitted cues with the same `cue_key` are at least
`MIN_SECONDS_BETWEEN_SAME_CUE` of wall-clock time apart; a call that
emits no cue (whether dropped early or by any of the three rate-limit
gates) advances none of the three cooldown clock maps; and all three
maps are stamped together, to the call's wall-clock time, exactly when
a cue is emitted. -/
theorem c5_rate_limiting (S : Session)
    (hd : 0 ≤ S.cfg.MIN_SECONDS_BETWEEN_SAME_CUE) :
    (∀ calls : List (Msg × ℚ),
      List.Pairwise (fun a b : Cue × ℚ => a.1.cue_key = b.1.cue_key →
        a.2 + S.cfg.MIN_SECONDS_BETWEEN_SAME_CUE ≤ b.2)
        (emissionsOf S initState calls))
    ∧ (∀ (σ : CoachState) (msg : Msg) (now : ℚ) r σ',
        ingest S σ msg now = (r, σ') → (∀ c : Cue, r ≠ .ok (some c)) →
        rateMaps σ' = rateMaps σ)
    ∧ (∀ (σ : CoachState) (msg : Msg) (now : ℚ) (c : Cue) σ',
        ingest S σ msg now = (.ok (some c), σ') →
        σ'.last_cue_time = mapSet σ.last_cue_time c.cue_key now
        ∧ σ'.last_cue_by_zone = mapSet σ.last_cue_by_zone c.zone_id now
        ∧ σ'.last_cue_by_type = mapSet σ.last_cue_by_type (cueTypeOf c.cue_key) now) := by
  refine ⟨?_, ?_, ?_⟩
  · intro calls
    have := emissions_pairwise_aux S hd calls initState [] (by simp) (by simp)
    simpa using this
  · intro σ msg now r σ' h hr
    exact ingest_drop_rateMaps S σ msg now r σ' h hr
  · intro σ msg now c σ' h
    obtain ⟨e1, e2, e3, _⟩ := ingest_emit_rateMaps S σ msg now c σ' h
    exact ⟨e1, e2, e3⟩

/-- Witness for C5: the demo session has a nonnegative same-cue
cooldown, and a concrete three-call trace satisfies the separation
property. -/
theorem c5_rate_limiting_witness :
    (0 : ℚ) ≤ demoSession.cfg.MIN_SECONDS_BETWEEN_SAME_CUE
    ∧ List.Pairwise (fun a b : Cue × ℚ => a.1.cue_key = b.1.cue_key →
        a.2 + demoSession.cfg.MIN_SECONDS_BETWEEN_SAME_CUE ≤ b.2)
      (emissionsOf demoSession initState [(demoMsg, 100), (demoMsg, 101), (demoMsg, 104)]) := by
  constructor
  · norm_num [demoSession, demoCfg, defaultConfig]
  · exact (c5_rate_limiting demoSession
      (by norm_num [demoSession, demoCfg, defaultConfig])).1
      [(demoMsg, 100), (demoMsg, 101), (demoMsg, 104)]

/-- Helper: the GPS-origin stage never touches the hysteresis
memory. -/
theorem zoneMem_geoStage (S : Session) (σ : CoachState) (p : Parsed) :
    zoneMem (geoStage S σ p).1 = zoneMem σ := by
  unfold geoStage
  by_cases h : σ.lat0 = none <;> simp [h, zoneMem]

/-- Helper: the buffer stage never touches the hysteresis memory. -/
theorem zoneMem_bufferStage (cfg : Config) (σ : CoachState) (smp : Sample) :
    zoneMem (bufferStage cfg σ smp) = zoneMem σ := rfl

/-- Helper: the per-zone cue-state update never touches the hysteresis
memory. -/
theorem zoneMem_cueStateUpdate (σ : CoachState) (zid ds : String) (sm : ℚ × ℚ) :
    zoneMem (cueStateUpdate σ zid ds sm) = zoneMem σ := rfl

/-- Helper: a passing rate-limit stage never touches the hysteresis
memory. -/
theorem zoneMem_rateStage_some (cfg : Config) (σ : CoachState) (zid key : String)
    (now : ℚ) (σ5 : CoachState) (h : rateStage cfg σ zid key now = some σ5) :
    zoneMem σ5 = zoneMem σ := by
  obtain ⟨h5, _⟩ := rateStage_some cfg σ zid key now σ5 h
  subst h5
  rfl

/-- Helper: the zone stage reads and writes only the hysteresis
memory, so it is a congruence in it. -/
theorem zoneMem_zoneStage_congr (cfg : Config) (σ τ : CoachState) (a b : String)
    (s : ℚ) (h : zoneMem σ = zoneMem τ) :
    zoneMem (zoneStage cfg σ a b s).1 = zoneMem (zoneStage cfg τ a b s).1 := by
  simp only [zoneMem, Prod.mk.injEq] at h
  obtain ⟨h1, h2, h3⟩ := h
  unfold zoneStage applyZoneHysteresis zoneTrackUpdate
  rw [h1, h2, h3]
  dsimp only
  cases hlz : τ.last_zone_id <;> cases hlzs : τ.last_zone_s <;> dsimp only <;>
    repeat' split
  all_goals simp [zoneMem, h1, h2, h3, hlz, hlzs]

/-- C7 per-call helper (`coach.py` lines 148-161): when the raw
classification differs from the confirmed zone but the position is
within the hysteresis distance of the last confirmed change, the zone
stage keeps the previous zone and confirms nothing — the state is
returned untouched. -/
theorem zoneStage_hysteresis_keep (cfg : Config) (σ : CoachState) (rawT rawId : String)
    (s : ℚ) (z : String) (s0 : ℚ) (h1 : σ.last_zone_id = some z)
    (h2 : σ.last_zone_s = some s0) (hne : z ≠ rawId)
    (hh : |s - s0| < cfg.ZONE_HYSTERESIS_M) :
    zoneStage cfg σ rawT rawId s = (σ, σ.last_zone_type, z) := by
  unfold zoneStage applyZoneHysteresis zoneTrackUpdate
  rw [h1, h2]
  dsimp only
  rw [if_pos (show z ≠ rawId ∧ |s - s0| < cfg.ZONE_HYSTERESIS_M from ⟨hne, hh⟩)]
  dsimp only
  rw [if_neg (show ¬(some z ≠ some z) by simp)]

/-- Helper: with a confirmed zone on record and a position within the
hysteresis distance of the last confirmed change, the zone stage never
alters the hysteresis memory (whether the raw classification agrees or
disagrees). -/
theorem zoneStage_keep_zoneMem (cfg : Config) (σ : CoachState) (a b : String) (s : ℚ)
    (z : String) (s1 : ℚ) (h1 : σ.last_zone_id = some z) (h2 : σ.last_zone_s = some s1)
    (hh : |s - s1| < cfg.ZONE_HYSTERESIS_M) :
    zoneMem (zoneStage cfg σ a b s).1 = zoneMem σ := by
  by_cases hzz : z = b
  · unfold zoneStage applyZoneHysteresis zoneTrackUpdate
    rw [h1, h2]
    dsimp only
    rw [if_neg (show ¬(z ≠ b ∧ |s - s1| < cfg.ZONE_HYSTERESIS_M) by simp [hzz])]
    dsimp only
    rw [if_neg (show ¬(some z ≠ some b) by simp [hzz])]
  · rw [zoneStage_hysteresis_keep cfg σ a b s z s1 h1 h2 hzz hh]

/-- Helper: on the first confirmed classification (no previous zone),
the zone stage records the raw zone and the current position. -/
theorem zoneStage_fresh (cfg : Config) (σ : CoachState) (a b : String) (s : ℚ)
    (h1 : σ.last_zone_id = none) :
    zoneMem (zoneStage cfg σ a b s).1 = (some b, some a, some s) := by
  unfold zoneStage applyZoneHysteresis zoneTrackUpdate
  rw [h1]
  dsimp only
  rw [if_pos (by simp)]
  simp [zoneMem]

/-- Helper: a call that does not reach the zone stage leaves the
hysteresis memory untouched. -/
theorem ingest_zone_noreach (S : Session) (σ : CoachState) (msg : Msg) (now : ℚ)
    (h : reachS S σ msg now = none) :
    zoneMem (ingest S σ msg now).2 = zoneMem σ := by
  unfold reachS at h
  unfold ingest
  cases hps : parseSample S.cfg msg now <;> rw [hps] at h
  case ok o =>
  cases o
  case none => rfl
  case some p =>
  simp only at h ⊢
  split at h
  case isTrue hC =>
    rw [if_pos hC]
    simp [zoneMem_bufferStage, zoneMem_geoStage]
  case isFalse hC => exact absurd h (by simp)

/-- Helper: a call that reaches the zone stage with arc-length `s`
updates the hysteresis memory exactly as the zone stage applied to the
incoming state with the raw classification at `s`. -/
theorem ingest_zone_reach (S : Session) (σ : CoachState) (msg : Msg) (now : ℚ) (s : ℚ)
    (h : reachS S σ msg now = some s) :
    zoneMem (ingest S σ msg now).2
      = zoneMem (zoneStage S.cfg σ
          (assign_zone_id s S.stop_lines_s S.turn_segs S.track.length_m
            S.cfg.STOP_APPROACH_M).1
          (assign_zone_id s S.stop_lines_s S.turn_segs S.track.length_m
            S.cfg.STOP_APPROACH_M).2 s).1 := by
  unfold reachS at h
  unfold ingest
  cases hps : parseSample S.cfg msg now <;> rw [hps] at h
  case error e => exact absurd h (by simp)
  case ok o =>
  cases o
  case none => exact absurd h (by simp)
  case some p =>
  simp only at h ⊢
  split at h
  case isTrue hC => exact absurd h (by simp)
  case isFalse hC =>
  simp only [Option.some.injEq] at h
  subst h
  rw [if_neg hC]
  repeat' split
  all_goals try rw [zoneMem_rateStage_some _ _ _ _ _ _
    (show rateStage _ _ _ _ _ = some _ by assumption)]
  all_goals try simp only [zoneMem_cueStateUpdate]
  all_goals
    (apply zoneMem_zoneStage_congr
     simp [zoneMem_bufferStage, zoneMem_geoStage])

/-- Helper: the zone history always starts with the current confirmed
zone. -/
theorem zoneIdsOf_shape (S : Session) (calls : List (Msg × ℚ)) (σ : CoachState) :
    ∃ l, zoneIdsOf S σ calls = σ.last_zone_id :: l := by
  cases calls <;> simp [zoneIdsOf]

/-- Helper: with a confirmed zone on record, a stream staying within
the hysteresis distance of the recorded change position never changes
the confirmed zone. -/
theorem zone_stable_aux (S : Session) :
    ∀ (calls : List (Msg × ℚ)) (σ : CoachState) (z : String) (s1 : ℚ),
      σ.last_zone_id = some z → σ.last_zone_s = some s1 →
      (∀ s ∈ reachListOf S σ calls, |s - s1| < S.cfg.ZONE_HYSTERESIS_M) →
      countChanges (zoneIdsOf S σ calls) = 0 := by
  intro calls
  induction calls with
  | nil =>
    intro σ z s1 h1 h2 h3
    simp [zoneIdsOf, countChanges]
  | cons ct rest ih =>
    intro σ z s1 h1 h2 h3
    obtain ⟨m, t⟩ := ct
    have hzm : zoneMem (ingest S σ m t).2 = zoneMem σ := by
      cases hre : reachS S σ m t with
      | none => exact ingest_zone_noreach S σ m t hre
      | some s =>
        rw [ingest_zone_reach S σ m t s hre]
        apply zoneStage_keep_zoneMem _ _ _ _ _ z s1 h1 h2
        apply h3
        simp [reachListOf, hre]
    have hz1 : (ingest S σ m t).2.last_zone_id = some z := by
      have := congrArg Prod.fst hzm
      simp only [zoneMem] at this
      rw [this, h1]
    have hz3 : (ingest S σ m t).2.last_zone_s = some s1 := by
      have := congrArg (fun x => x.2.2) hzm
      simp only [zoneMem] at this
      rw [this, h2]
    have hrl : ∀ s ∈ reachListOf S (ingest S σ m t).2 rest,
        |s - s1| < S.cfg.ZONE_HYSTERESIS_M := by
      intro s hs
      apply h3
      simp only [reachListOf]
      exact List.mem_append_right _ hs
    have hrec := ih (ingest S σ m t).2 z s1 hz1 hz3 hrl
    obtain ⟨l, hl⟩ := zoneIdsOf_shape S rest (ingest S σ m t).2
    rw [hl] at hrec
    rw [hz1] at hrec
    simp only [zoneIdsOf, hl, countChanges, h1, hz1]
    simpa using hrec

/-- Helper: from a fresh instance, a stream whose reached positions
all stay within the hysteresis distance of the first reached position
confirms at most one zone transition. -/
theorem zone_once_aux (S : Session) :
    ∀ (calls : List (Msg × ℚ)) (σ : CoachState),
      σ.last_zone_id = none → σ.last_zone_s = none →
      (∀ s1 s, (reachListOf S σ calls).head? = some s1 →
        s ∈ reachListOf S σ calls → |s - s1| < S.cfg.ZONE_HYSTERESIS_M) →
      countChanges (zoneIdsOf S σ calls) ≤ 1 := by
  intro calls
  induction calls with
  | nil =>
    intro σ h1 h2 h3
    simp [zoneIdsOf, countChanges]
  | cons ct rest ih =>
    intro σ h1 h2 h3
    obtain ⟨m, t⟩ := ct
    cases hre : reachS S σ m t with
    | none =>
      have hzm := ingest_zone_noreach S σ m t hre
      have hz1 : (ingest S σ m t).2.last_zone_id = none := by
        have := congrArg Prod.fst hzm
        simp only [zoneMem] at this
        rw [this, h1]
      have hz3 : (ingest S σ m t).2.last_zone_s = none := by
        have := congrArg (fun x => x.2.2) hzm
        simp only [zoneMem] at this
        rw [this, h2]
      have hrl : ∀ s1 s, (reachListOf S (ingest S σ m t).2 rest).head? = some s1 →
          s ∈ reachListOf S (ingest S σ m t).2 rest →
          |s - s1| < S.cfg.ZONE_HYSTERESIS_M := by
        intro s1 s hh hs
        apply h3 s1 s
        · simpa [reachListOf, hre] using hh
        · simp only [reachListOf, hre]
          simpa using hs
      have hrec := ih (ingest S σ m t).2 hz1 hz3 hrl
      obtain ⟨l, hl⟩ := zoneIdsOf_shape S rest (ingest S σ m t).2
      rw [hl] at hrec
      rw [hz1] at hrec
      simp only [zoneIdsOf, hl, countChanges, h1, hz1]
      simpa using hrec
    | some s =>
      have hraw := ingest_zone_reach S σ m t s hre
      rw [zoneStage_fresh _ _ _ _ _ h1] at hraw
      have hz1 : (ingest S σ m t).2.last_zone_id
          = some (assign_zone_id s S.stop_lines_s S.turn_segs S.track.length_m
              S.cfg.STOP_APPROACH_M).2 := by
        have := congrArg Prod.fst hraw
        simpa [zoneMem] using this
      have hz3 : (ingest S σ m t).2.last_zone_s = some s := by
        have := congrArg (fun x => x.2.2) hraw
        simpa [zoneMem] using this
      have hmem : s ∈ reachListOf S σ ((m, t) :: rest) := by
        simp [reachListOf, hre]
      have hhead : (reachListOf S σ ((m, t) :: rest)).head? = some s := by
        simp [reachListOf, hre]
      have hrl : ∀ s' ∈ reachListOf S (ingest S σ m t).2 rest,
          |s' - s| < S.cfg.ZONE_HYSTERESIS_M := by
        intro s' hs
        apply h3 s s' hhead
        simp [reachListOf, hre, List.mem_cons]
        exact Or.inr hs
      have hrec := zone_stable_aux S rest (ingest S σ m t).2 _ s hz1 hz3 hrl
      obtain ⟨l, hl⟩ := zoneIdsOf_shape S rest (ingest S σ m t).2
      rw [hl] at hrec
      rw [hz1] at hrec
      simp only [zoneIdsOf, hl, countChanges, h1, hz1]
      simp at hrec ⊢
      omega

/-- C7: when the raw zone classification differs from the previously
confirmed zone but the position is still within the configured
hysteresis distance of the last confirmed change, the previous zone is
kept and no transition is confirmed (the hysteresis memory is
untouched); consequently, over any stream on a fresh instance whose
reached positions stay within the hysteresis distance of the first
confirmed change, at most one confirmed zone transition occurs. -/
theorem c7_zone_hysteresis (S : Session) :
    (∀ (cfg : Config) (σ : CoachState) (rawT rawId : String) (s s0 : ℚ) (z : String),
      σ.last_zone_id = some z → σ.last_zone_s = some s0 → z ≠ rawId →
      |s - s0| < cfg.ZONE_HYSTERESIS_M →
      zoneStage cfg σ rawT rawId s = (σ, σ.last_zone_type, z))
    ∧ (∀ calls : List (Msg × ℚ),
      (∀ s1 s, (reachListOf S initState calls).head? = some s1 →
        s ∈ reachListOf S initState calls → |s - s1| < S.cfg.ZONE_HYSTERESIS_M) →
      countChanges (zoneIdsOf S initState calls) ≤ 1) := by
  constructor
  · intro cfg σ rawT rawId s s0 z h1 h2 hne hh
    exact zoneStage_hysteresis_keep cfg σ rawT rawId s z s0 h1 h2 hne hh
  · intro calls h3
    exact zone_once_aux S calls initState rfl rfl h3

/-- Witness for C7: a state confirmed in zone `Z1` at position 0 keeps
`Z1` on a raw `STRAIGHT` classification at position 3 (inside the 5 m
hysteresis), and a concrete one-call trace on the demo session
confirms at most one transition. -/
theorem c7_zone_hysteresis_witness :
    zoneStage demoCfg
        { initState with last_zone_id := some "Z1", last_zone_type := some "TURN"
                         last_zone_s := some 0 } "STRAIGHT" "STRAIGHT" 3
      = ({ initState with last_zone_id := some "Z1", last_zone_type := some "TURN"
                          last_zone_s := some 0 }, some "TURN", "Z1")
    ∧ countChanges (zoneIdsOf demoSession initState [(demoMsg, 100)]) ≤ 1 := by
  constructor
  · exact (c7_zone_hysteresis demoSession).1 demoCfg
      { initState with last_zone_id := some "Z1", last_zone_type := some "TURN"
                       last_zone_s := some 0 } "STRAIGHT" "STRAIGHT" 3 0 "Z1"
      rfl rfl (by decide) (by norm_num [demoCfg, defaultConfig])
  · apply (c7_zone_hysteresis demoSession).2 [(demoMsg, 100)]
    intro s1 s hh hs
    have hrl : reachListOf demoSession initState [(demoMsg, 100)] = [0] := by
      with_unfolding_all rfl
    rw [hrl] at hh hs
    simp at hh hs
    rw [hs, ← hh]
    norm_num [demoSession, demoCfg, defaultConfig]

/-! ### C8: geometry of the projection loop -/

/-- The clamped parameter is at least 0. -/
theorem segCandT_nonneg (qx qy : ℚ) (t : Track) (i : ℕ) :
    0 ≤ segCandT qx qy t i :=
  le_max_left 0 _

/-- The clamped parameter is at most 1. -/
theorem segCandT_le_one (qx qy : ℚ) (t : Track) (i : ℕ) :
    segCandT qx qy t i ≤ 1 :=
  max_le (by norm_num) (min_le_left 1 _)

/-- Squared distances are nonnegative. -/
theorem candDist2_nonneg (qx qy : ℚ) (t : Track) (i : ℕ) :
    0 ≤ candDist2 qx qy t i := by
  have aux : ∀ a b : ℚ, 0 ≤ a * a + b * b := fun a b => by
    nlinarith [mul_self_nonneg a, mul_self_nonneg b]
  exact aux _ _

/-- Clamping the parabola `f tt = |w - tt v|²` to `[0,1]` never does
worse than the left endpoint `f 0 = |w|²`. -/
theorem clamp_quad_le (wx wy vx vy tt : ℚ)
    (hvv : 0 < vx * vx + vy * vy)
    (htt : tt = max 0 (min 1 ((wx * vx + wy * vy) / (vx * vx + vy * vy)))) :
    (wx - tt * vx) * (wx - tt * vx) + (wy - tt * vy) * (wy - tt * vy)
      ≤ wx * wx + wy * wy := by
  have key : tt * (tt * (vx * vx + vy * vy) - 2 * (wx * vx + wy * vy)) ≤ 0 := by
    by_cases hc : 0 < wx * vx + wy * vy
    · have h1 : 0 ≤ tt := htt ▸ le_max_left 0 _
      have h2 : tt ≤ (wx * vx + wy * vy) / (vx * vx + vy * vy) := by
        rw [htt]
        exact max_le (div_nonneg hc.le hvv.le) (min_le_right 1 _)
      have h3 : tt * (vx * vx + vy * vy) ≤ wx * vx + wy * vy :=
        (le_div_iff₀ hvv).mp h2
      nlinarith
    · push_neg at hc
      have h4 : min 1 ((wx * vx + wy * vy) / (vx * vx + vy * vy)) ≤ 0 :=
        le_trans (min_le_right 1 _) (div_nonpos_iff.mpr (Or.inr ⟨hc, hvv.le⟩))
      have h5 : tt = 0 := by rw [htt]; exact max_eq_left h4
      rw [h5]
      simp
  nlinarith [key]

/-- The candidate distance of a non-degenerate segment is at most the
squared distance from the query to the segment's start vertex. -/
theorem candDist2_le_start (qx qy : ℚ) (t : Track) (i : ℕ)
    (hvv : 0 < segVV t i) :
    candDist2 qx qy t i
      ≤ (qx - vtxX t i) * (qx - vtxX t i) + (qy - vtxY t i) * (qy - vtxY t i) := by
  have hvv' : 0 < (vtxX t (i + 1) - vtxX t i) * (vtxX t (i + 1) - vtxX t i)
      + (vtxY t (i + 1) - vtxY t i) * (vtxY t (i + 1) - vtxY t i) := hvv
  have h := clamp_quad_le (qx - vtxX t i) (qy - vtxY t i)
    (vtxX t (i + 1) - vtxX t i) (vtxY t (i + 1) - vtxY t i)
    (segCandT qx qy t i) hvv' rfl
  have heq : candDist2 qx qy t i
      = (qx - vtxX t i - segCandT qx qy t i * (vtxX t (i + 1) - vtxX t i))
          * (qx - vtxX t i - segCandT qx qy t i * (vtxX t (i + 1) - vtxX t i))
        + (qy - vtxY t i - segCandT qx qy t i * (vtxY t (i + 1) - vtxY t i))
          * (qy - vtxY t i - segCandT qx qy t i * (vtxY t (i + 1) - vtxY t i)) := by
    simp only [candDist2]
    ring
  rw [heq]
  exact h

/-- On a well-formed track the arc-length array is nonnegative. -/
theorem sAt_nonneg (t : Track) (hwf : WellFormedTrack t) (i : ℕ)
    (hi : i < t.x.length) : 0 ≤ sAt t i := by
  rcases Nat.eq_zero_or_pos i with h | h
  · subst h
    exact le_of_eq hwf.s_zero.symm
  · rw [← hwf.s_zero]
    exact (hwf.s_mono i hi 0 h).le

/-- The candidate arc-length of segment `i` lies between `s[i]` and
`s[i+1]`. -/
theorem candS_bounds (t : Track) (hwf : WellFormedTrack t) (qx qy : ℚ) (i : ℕ)
    (hi : i + 1 < t.x.length) :
    sAt t i ≤ candS qx qy t i ∧ candS qx qy t i ≤ sAt t (i + 1) := by
  have h0 := segCandT_nonneg qx qy t i
  have h1 := segCandT_le_one qx qy t i
  have hd : sAt t i ≤ sAt t (i + 1) := (hwf.s_mono (i + 1) hi i (Nat.lt_succ_self i)).le
  unfold candS
  constructor <;> nlinarith

/-- A candidate arc-length reaching `s[i+1]` forces the clamped
parameter to 1. -/
theorem candS_top (t : Track) (hwf : WellFormedTrack t) (qx qy : ℚ) (i : ℕ)
    (hi : i + 1 < t.x.length)
    (hS : candS qx qy t i = sAt t (i + 1)) :
    segCandT qx qy t i = 1 := by
  have hd : sAt t i < sAt t (i + 1) := hwf.s_mono (i + 1) hi i (Nat.lt_succ_self i)
  unfold candS at hS
  have h2 : (segCandT qx qy t i - 1) * (sAt t (i + 1) - sAt t i) = 0 := by
    linear_combination hS
  rcases mul_eq_zero.mp h2 with h | h
  · linarith
  · linarith

/-- At clamped parameter 1 the candidate point is the segment's end
vertex. -/
theorem candDist2_at_one (qx qy : ℚ) (t : Track) (i : ℕ)
    (h1 : segCandT qx qy t i = 1) :
    candDist2 qx qy t i
      = (qx - vtxX t (i + 1)) * (qx - vtxX t (i + 1))
        + (qy - vtxY t (i + 1)) * (qy - vtxY t (i + 1)) := by
  simp only [candDist2, h1]
  ring

/-- Loop invariant of `project_to_polyline` on a well-formed track:
the best arc-length stays in `[0, L)` (the closing candidate at
arc-length `L` is the duplicated first vertex, and the strict `<` of
the loop never lets it replace segment 0's weakly better distance). -/
theorem projFold_range (t : Track) (hwf : WellFormedTrack t) (qx qy : ℚ) :
    ∀ (len a : ℕ) (acc : PBest), a + len = t.x.length - 1 →
      0 ≤ acc.s → acc.s < t.length_m →
      ((a = 0 ∧ acc.dist2 = none)
        ∨ (∃ b, acc.dist2 = some b
            ∧ b ≤ (qx - vtxX t 0) * (qx - vtxX t 0)
                  + (qy - vtxY t 0) * (qy - vtxY t 0))) →
      0 ≤ (projFold qx qy t (List.range' a len) acc).s
        ∧ (projFold qx qy t (List.range' a len) acc).s < t.length_m := by
  intro len
  induction len with
  | zero =>
    intro a acc _ hs0 hsL _
    exact ⟨hs0, hsL⟩
  | succ len ih =>
    intro a acc hlen hs0 hsL hd
    have hxlen := hwf.two_le
    have ha1 : a + 1 < t.x.length := by omega
    have hvv : 1 / 1000000000 ≤ segVV t a := hwf.nondegen a ha1
    have hvvpos : 0 < segVV t a := lt_of_lt_of_le (by norm_num) hvv
    have hstep : projStep qx qy t a acc
        = if ltInf (candDist2 qx qy t a) acc.dist2 then
            { dist2 := some (candDist2 qx qy t a)
              s := candS qx qy t a
              sign := if 0 ≤ (vtxX t (a + 1) - vtxX t a) * (qy - vtxY t a)
                  - (vtxY t (a + 1) - vtxY t a) * (qx - vtxX t a) then 1 else -1 }
          else acc := by
      unfold projStep
      rw [if_neg (not_lt.mpr hvv)]
    have hcands : 0 ≤ candS qx qy t a ∧ candS qx qy t a ≤ sAt t (a + 1) := by
      obtain ⟨hlo, hhi⟩ := candS_bounds t hwf qx qy a ha1
      exact ⟨le_trans (sAt_nonneg t hwf a (by omega)) hlo, hhi⟩
    have hcandL : ltInf (candDist2 qx qy t a) acc.dist2 = true →
        candS qx qy t a < t.length_m := by
      intro hacc
      rcases Nat.lt_or_ge (a + 1) (t.x.length - 1) with hlt | hge
      · have h1 : sAt t (a + 1) < sAt t (t.x.length - 1) :=
          hwf.s_mono (t.x.length - 1) (by omega) (a + 1) hlt
        have h2 : sAt t (t.x.length - 1) ≤ t.length_m := hwf.s_le_L _ (by omega)
        linarith [hcands.2]
      · have hafin : a + 1 = t.x.length - 1 := by omega
        rcases lt_or_eq_of_le (hwf.s_le_L (a + 1) (by omega)) with hSL | hSL
        · linarith [hcands.2]
        · by_contra hge2
          push_neg at hge2
          have hSeq : candS qx qy t a = sAt t (a + 1) :=
            le_antisymm hcands.2 (by rw [hSL]; exact hge2)
          have htt1 : segCandT qx qy t a = 1 := candS_top t hwf qx qy a ha1 hSeq
          have hclosed := hwf.closed (by rw [← hafin]; exact hSL)
          have hd2 : candDist2 qx qy t a
              = (qx - vtxX t 0) * (qx - vtxX t 0)
                + (qy - vtxY t 0) * (qy - vtxY t 0) := by
            rw [candDist2_at_one qx qy t a htt1, hafin, hclosed.1, hclosed.2]
          rcases hd with ⟨ha0, hnone⟩ | ⟨b, hb, hbd⟩
          · subst ha0
            have hdeg : segVV t 0 = 0 := by
              unfold segVV
              rw [show (0 : ℕ) + 1 = t.x.length - 1 from hafin, hclosed.1, hclosed.2]
              ring
            rw [hdeg] at hvvpos
            exact lt_irrefl 0 hvvpos
          · rw [hb] at hacc
            have hlt2 : candDist2 qx qy t a < b := by simpa [ltInf] using hacc
            rw [hd2] at hlt2
            linarith
    have hfold : projFold qx qy t (List.range' a (len + 1)) acc
        = projFold qx qy t (List.range' (a + 1) len) (projStep qx qy t a acc) := rfl
    rw [hfold, hstep]
    by_cases hacc : ltInf (candDist2 qx qy t a) acc.dist2 = true
    · rw [if_pos hacc]
      apply ih (a + 1) _ (by omega) hcands.1 (hcandL hacc)
      right
      refine ⟨candDist2 qx qy t a, rfl, ?_⟩
      rcases hd with ⟨ha0, hnone⟩ | ⟨b, hb, hbd⟩
      · subst ha0
        exact candDist2_le_start qx qy t 0 hvvpos
      · rw [hb] at hacc
        have hlt2 : candDist2 qx qy t a < b := by simpa [ltInf] using hacc
        linarith
    · rw [if_neg hacc]
      apply ih (a + 1) acc (by omega) hs0 hsL
      right
      rcases hd with ⟨ha0, hnone⟩ | hsome
      · exfalso
        rw [hnone] at hacc
        simp [ltInf] at hacc
      · exact hsome

/-- A stretch of the loop whose segments all keep a positive distance
to the query preserves positivity of the stored best distance. -/
theorem projFold_pos (qx qy : ℚ) (t : Track) :
    ∀ (l : List ℕ) (acc : PBest),
      (∀ j ∈ l, 0 < candDist2 qx qy t j) →
      (∀ b, acc.dist2 = some b → 0 < b) →
      ∀ b, (projFold qx qy t l acc).dist2 = some b → 0 < b := by
  intro l
  induction l with
  | nil => intro acc _ hacc; exact hacc
  | cons i rest ih =>
    intro acc hl hacc
    apply ih (projStep qx qy t i acc) (fun j hj => hl j (List.mem_cons_of_mem i hj))
    intro b hb
    unfold projStep at hb
    split at hb
    · exact hacc b hb
    · dsimp only at hb
      split at hb
      · have hb2 : some (candDist2 qx qy t i) = some b := hb
        rw [← Option.some.inj hb2]
        exact hl i (List.mem_cons_self i rest)
      · exact hacc b hb

/-- Processing segment `i` with the query at the segment's end vertex
stores the exact hit (distance 0, arc-length `s[i+1]`, sign 1), as
long as the stored best distance, if any, is still positive. -/
theorem projStep_vertex_end (t : Track) (hwf : WellFormedTrack t) (i : ℕ)
    (hi : i + 1 < t.x.length) (acc : PBest)
    (hpos : ∀ b, acc.dist2 = some b → 0 < b) :
    projStep (vtxX t (i + 1)) (vtxY t (i + 1)) t i acc
      = { dist2 := some 0, s := sAt t (i + 1), sign := 1 } := by
  have hvv : 1 / 1000000000 ≤ segVV t i := hwf.nondegen i hi
  have hvvpos : 0 < segVV t i := lt_of_lt_of_le (by norm_num) hvv
  have htt : segCandT (vtxX t (i + 1)) (vtxY t (i + 1)) t i = 1 := by
    unfold segCandT
    have hnum : (vtxX t (i + 1) - vtxX t i) * (vtxX t (i + 1) - vtxX t i)
        + (vtxY t (i + 1) - vtxY t i) * (vtxY t (i + 1) - vtxY t i) = segVV t i := rfl
    rw [hnum, div_self (ne_of_gt hvvpos)]
    simp
  have hd0 : candDist2 (vtxX t (i + 1)) (vtxY t (i + 1)) t i = 0 := by
    simp only [candDist2, htt]
    ring
  have hs : candS (vtxX t (i + 1)) (vtxY t (i + 1)) t i = sAt t (i + 1) := by
    unfold candS
    rw [htt]
    ring
  unfold projStep
  rw [if_neg (not_lt.mpr hvv)]
  dsimp only
  rw [hd0]
  have hltt : ltInf 0 acc.dist2 = true := by
    cases hdd : acc.dist2 with
    | none => rfl
    | some b => simpa [ltInf] using hpos b hdd
  rw [if_pos hltt, hs]
  have hsign : (0 : ℚ) ≤ (vtxX t (i + 1) - vtxX t i) * (vtxY t (i + 1) - vtxY t i)
      - (vtxY t (i + 1) - vtxY t i) * (vtxX t (i + 1) - vtxX t i) := le_of_eq (by ring)
  rw [if_pos hsign]

/-- Processing segment `i` with the query at the segment's start
vertex, while no best is stored yet, stores the exact hit (distance 0,
arc-length `s[i]`, sign 1). -/
theorem projStep_vertex_start (t : Track) (hwf : WellFormedTrack t) (i : ℕ)
    (hi : i + 1 < t.x.length) (acc : PBest)
    (hnone : acc.dist2 = none) :
    projStep (vtxX t i) (vtxY t i) t i acc
      = { dist2 := some 0, s := sAt t i, sign := 1 } := by
  have hvv : 1 / 1000000000 ≤ segVV t i := hwf.nondegen i hi
  have htt : segCandT (vtxX t i) (vtxY t i) t i = 0 := by
    unfold segCandT
    have hnum : (vtxX t i - vtxX t i) * (vtxX t (i + 1) - vtxX t i)
        + (vtxY t i - vtxY t i) * (vtxY t (i + 1) - vtxY t i) = 0 := by ring
    rw [hnum, zero_div]
    rw [min_eq_right (by norm_num : (0 : ℚ) ≤ 1), max_self]
  have hd0 : candDist2 (vtxX t i) (vtxY t i) t i = 0 := by
    simp only [candDist2, htt]
    ring
  have hs : candS (vtxX t i) (vtxY t i) t i = sAt t i := by
    unfold candS
    rw [htt]
    ring
  unfold projStep
  rw [if_neg (not_lt.mpr hvv)]
  dsimp only
  rw [hd0, hnone]
  rw [if_pos (show ltInf 0 none = true from rfl), hs]
  have hsign : (0 : ℚ) ≤ (vtxX t (i + 1) - vtxX t i) * (vtxY t i - vtxY t i)
      - (vtxY t (i + 1) - vtxY t i) * (vtxX t i - vtxX t i) := le_of_eq (by ring)
  rw [if_pos hsign]

/-- Once the stored best distance is 0, no later segment replaces it
(the loop replaces only on strictly smaller squared distance). -/
theorem projFold_zero_stays (qx qy : ℚ) (t : Track) :
    ∀ (l : List ℕ) (acc : PBest), acc.dist2 = some 0 →
      projFold qx qy t l acc = acc := by
  intro l
  induction l with
  | nil => intro acc _; rfl
  | cons i rest ih =>
    intro acc h0
    have hstep : projStep qx qy t i acc = acc := by
      unfold projStep
      split
      · rfl
      · dsimp only
        rw [h0]
        rw [if_neg (by
          simp only [ltInf, decide_eq_true_eq]
          exact not_lt.mpr (candDist2_nonneg qx qy t i))]
    show projFold qx qy t rest (projStep qx qy t i acc) = acc
    rw [hstep]
    exact ih acc h0

/-- `range'` splits at any midpoint. -/
theorem range'_split (a m p : ℕ) :
    List.range' a (m + p) = List.range' a m ++ List.range' (a + m) p := by
  induction m generalizing a with
  | zero => simp
  | succ m ih =>
    rw [show m + 1 + p = (m + p) + 1 from by omega]
    rw [show List.range' a (m + p + 1) = a :: List.range' (a + 1) (m + p) from rfl]
    rw [ih (a + 1)]
    rw [show List.range' a (m + 1) = a :: List.range' (a + 1) m from rfl]
    rw [List.cons_append]
    rw [show a + (m + 1) = a + 1 + m from by omega]

/-- The projection loop processes appended index lists in sequence. -/
theorem projFold_append (qx qy : ℚ) (t : Track) :
    ∀ (l1 l2 : List ℕ) (acc : PBest),
      projFold qx qy t (l1 ++ l2) acc
        = projFold qx qy t l2 (projFold qx qy t l1 acc) := by
  intro l1
  induction l1 with
  | nil => intro l2 acc; rfl
  | cons i rest ih =>
    intro l2 acc
    simp only [List.cons_append, projFold]
    exact ih l2 (projStep qx qy t i acc)

/-- Members of `range' a n` lie in `[a, a + n)`. -/
theorem mem_range'_bounds (j : ℕ) :
    ∀ (n a : ℕ), j ∈ List.range' a n → a ≤ j ∧ j < a + n := by
  intro n
  induction n with
  | zero => intro a h; cases h
  | succ n ih =>
    intro a h
    rw [show List.range' a (n + 1) = a :: List.range' (a + 1) n from rfl] at h
    rcases List.mem_cons.mp h with h | h
    · omega
    · have := ih (a + 1) h
      omega

/-- C8: on every well-formed closed-loop track (strictly increasing
arc-lengths from `s[0] = 0`, positive total length `L`, arc-lengths at
most `L`, final vertex duplicating the first when its arc-length is
`L`, no segment below the `1e-9` degeneracy guard), the arc-length
returned by `project_to_polyline` lies in the half-open interval
`[0, L)` for every query point; and projecting the exact coordinates
of any vertex `k` before the closing duplicate — one not lying on any
earlier non-adjacent segment — returns arc-length exactly `s[k]`
(exactly, since the embedding's rationals carry no rounding). -/
theorem c8_projection (t : Track) (hwf : WellFormedTrack t) :
    (∀ qx qy : ℚ,
      0 ≤ (project_to_polyline qx qy t).s
        ∧ (project_to_polyline qx qy t).s < t.length_m)
    ∧ (∀ k : ℕ, k + 1 < t.x.length →
        (∀ j : ℕ, j + 2 ≤ k → 0 < candDist2 (vtxX t k) (vtxY t k) t j) →
        (project_to_polyline (vtxX t k) (vtxY t k) t).s = sAt t k) := by
  constructor
  · intro qx qy
    unfold project_to_polyline
    rw [List.range_eq_range']
    exact projFold_range t hwf qx qy (t.x.length - 1) 0
      { dist2 := none, s := 0, sign := 1 } (by omega) le_rfl hwf.L_pos
      (Or.inl ⟨rfl, rfl⟩)
  · intro k hk hsep
    unfold project_to_polyline
    rw [List.range_eq_range']
    rcases Nat.eq_zero_or_pos k with hk0 | hkpos
    · subst hk0
      have harith : t.x.length - 1 = 1 + (t.x.length - 1 - 1) := by omega
      rw [harith, range'_split, projFold_append, Nat.zero_add]
      have h1 : projFold (vtxX t 0) (vtxY t 0) t (List.range' 0 1)
          { dist2 := none, s := 0, sign := 1 }
          = { dist2 := some 0, s := sAt t 0, sign := 1 } := by
        show projStep (vtxX t 0) (vtxY t 0) t 0 { dist2 := none, s := 0, sign := 1 } = _
        exact projStep_vertex_start t hwf 0 hk { dist2 := none, s := 0, sign := 1 } rfl
      rw [h1, projFold_zero_stays _ _ _ _ _ rfl]
    · have harith : t.x.length - 1 = (k - 1) + (1 + (t.x.length - 1 - k)) := by omega
      rw [harith, range'_split, range'_split, projFold_append, projFold_append,
        Nat.zero_add, show k - 1 + 1 = k from by omega]
      have hA : ∀ b, (projFold (vtxX t k) (vtxY t k) t (List.range' 0 (k - 1))
          { dist2 := none, s := 0, sign := 1 }).dist2 = some b → 0 < b := by
        apply projFold_pos
        · intro j hj
          have hj' := mem_range'_bounds j (k - 1) 0 hj
          exact hsep j (by omega)
        · intro b hb
          exact Option.noConfusion hb
      have hk1 : k - 1 + 1 = k := by omega
      have hB := projStep_vertex_end t hwf (k - 1)
        (show k - 1 + 1 < t.x.length by omega)
        (projFold (vtxX t (k - 1 + 1)) (vtxY t (k - 1 + 1)) t (List.range' 0 (k - 1))
          { dist2 := none, s := 0, sign := 1 })
        (by rw [hk1]; exact hA)
      rw [hk1] at hB
      have hmid : projFold (vtxX t k) (vtxY t k) t (List.range' (k - 1) 1)
          (projFold (vtxX t k) (vtxY t k) t (List.range' 0 (k - 1))
            { dist2 := none, s := 0, sign := 1 })
          = { dist2 := some 0, s := sAt t k, sign := 1 } := by
        show projStep (vtxX t k) (vtxY t k) t (k - 1)
          (projFold (vtxX t k) (vtxY t k) t (List.range' 0 (k - 1))
            { dist2 := none, s := 0, sign := 1 }) = _
        exact hB
      rw [hmid, projFold_zero_stays _ _ _ _ _ rfl]

/-- Witness for C8 on the demo rectangle: the projection of the point
`(30, -40)` lands in `[0, 300)`, and projecting vertex 2 = `(100, 50)`
returns `s[2] = 150` on the nose. -/
theorem c8_projection_witness :
    0 ≤ (project_to_polyline 30 (-40) demoTrack).s
      ∧ (project_to_polyline 30 (-40) demoTrack).s < demoTrack.length_m
      ∧ (project_to_polyline (vtxX demoTrack 2) (vtxY demoTrack 2) demoTrack).s
          = sAt demoTrack 2
      ∧ sAt demoTrack 2 = 150 := by
  have hwf : WellFormedTrack demoTrack := by
    constructor
    · rfl
    · rfl
    · decide
    · rfl
    · decide
    · decide
    · decide
    · intro h
      exact ⟨rfl, rfl⟩
    · intro j hj
      have hj4 : j < 4 := by
        have hj5 : j + 1 < 5 := by simpa [demoTrack] using hj
        omega
      interval_cases j <;>
        exact of_decide_eq_true (by with_unfolding_all rfl)
  have hsep : ∀ j : ℕ, j + 2 ≤ 2 →
      0 < candDist2 (vtxX demoTrack 2) (vtxY demoTrack 2) demoTrack j := by
    intro j hj
    have hj0 : j = 0 := by omega
    subst hj0
    exact of_decide_eq_true (by with_unfolding_all rfl)
  have h1 := (c8_projection demoTrack hwf).1 30 (-40)
  have h2 := (c8_projection demoTrack hwf).2 2 (by decide) hsep
  exact ⟨h1.1, h1.2, h2, rfl⟩

end ShellCoach
